import Mathlib

/-!
Verification of the DirectDemod flask server core
(`directdemod/server/server.py`): window bookkeeping (`get_interval`),
upload ingestion (`upload_page`), the periodic tick (`update`), the
image pipeline (`process`) and the reconciliation step
(`move_unprocessed_files`).

Embedding conventions:
* the filesystem is an association list from directory path to directory
  contents (filename/content pairs, contents are opaque `Nat` blobs);
* the external image-science collaborators (`preprocess`,
  `save_metadata`, `Georeferencer.georef_tif`, `merge`, `set_nodata`)
  are not part of the repository source; following the specification
  they are success/failure oracles: on success the per-file stage
  produces the derived artifact, on failure it raises and produces
  nothing, `merge` either succeeds or raises;
* Python exceptions are modelled with `Except`, the error carrying the
  global state at the moment of the raise (Python globals keep every
  mutation made before an exception propagates);
* `os.system` (the gdal2tiles tiling call) never raises; its invocations
  are recorded in an event list, as are `merge` invocations and the
  per-file failures printed by the loop;
* `APP.root_path` is abstracted as the constant `root_path`.
-/

namespace DirectDemod

/-! ## Calendar model: `time.gmtime` and `time.strftime "%Y-%m-%d_%H:%M:%S"`

`get_interval(start_time, rate)` in the source is
`strftime("%Y-%m-%d_%H:%M:%S", gmtime(start_time)) + "_" +
strftime("%Y-%m-%d_%H:%M:%S", gmtime(start_time + rate))`.
`time.gmtime` is modelled for non-negative POSIX instants: proleptic
Gregorian calendar from the 1970-01-01 epoch.  The year search first
jumps whole 400-year Gregorian cycles (146097 days each) and then walks
single years, so kernel evaluation stays shallow while the result is
correct for every natural-number instant. -/

/-- Gregorian leap-year rule used by `time.gmtime`. -/
def isLeap (y : Nat) : Bool := (y % 4 == 0 && y % 100 != 0) || y % 400 == 0

/-- Number of days of year `y`. -/
def yearLen (y : Nat) : Nat := if isLeap y then 366 else 365

/-- Walk forward from year `y` consuming `d` days; returns
(year, day-of-year).  Fuel-structural so the kernel can evaluate it;
callers pass enough fuel for at most one 400-year cycle. -/
def findYear : Nat → Nat → Nat → Nat × Nat
  | 0, y, d => (y, d)
  | fuel + 1, y, d => if d < yearLen y then (y, d) else findYear fuel (y + 1) (d - yearLen y)

/-- Year and day-of-year of day number `d` (days since 1970-01-01):
jump whole 400-year cycles, then scan single years. -/
def gmtimeDays (d : Nat) : Nat × Nat :=
  findYear 500 (1970 + 400 * (d / 146097)) (d % 146097)

/-- Total days of the `n` consecutive years starting at year `y`. -/
def daysFrom (y : Nat) : Nat → Nat
  | 0 => 0
  | n + 1 => yearLen y + daysFrom (y + 1) n

/-- Month lengths, January first. -/
def monthLens (leap : Bool) : List Nat :=
  [31, if leap then 29 else 28, 31, 30, 31, 30, 31, 31, 30, 31, 30, 31]

/-- Walk the month-length table consuming `d` days; returns
(month, day-of-month counted from 0). -/
def findMonth : List Nat → Nat → Nat → Nat × Nat
  | [], m, d => (m, d)
  | L :: rest, m, d => if d < L then (m, d) else findMonth rest (m + 1) (d - L)

/-- Broken-down UTC time, named after Python's `struct_time` fields. -/
structure Tm where
  tm_year : Nat
  tm_mon : Nat
  tm_mday : Nat
  tm_hour : Nat
  tm_min : Nat
  tm_sec : Nat
  deriving DecidableEq

/-- Model of `time.gmtime` on a non-negative POSIX timestamp. -/
def gmtime (t : Nat) : Tm :=
  let secs := t % 86400
  let yd := gmtimeDays (t / 86400)
  let md := findMonth (monthLens (isLeap yd.1)) 1 yd.2
  { tm_year := yd.1, tm_mon := md.1, tm_mday := md.2 + 1,
    tm_hour := secs / 3600, tm_min := secs % 3600 / 60, tm_sec := secs % 60 }

/-- Decimal digit character. -/
def digChar (d : Nat) : Char := Char.ofNat (48 + d)

/-- Fuel-bounded decimal digit list helper. -/
def decDigitsAux : Nat → Nat → List Char
  | 0, _ => []
  | fuel + 1, n => if n < 10 then [digChar n] else decDigitsAux fuel (n / 10) ++ [digChar (n % 10)]

/-- Decimal digits of `n`, most significant first (`n + 1` units of fuel
always suffice, so this is total and correct for every `n`). -/
def decDigits (n : Nat) : List Char := decDigitsAux (n + 1) n

/-- Two-digit zero padding, as the `%m`/`%d`/`%H`/`%M`/`%S` directives
produce. -/
def pad2 (n : Nat) : List Char := if n < 10 then '0' :: decDigits n else decDigits n

/-- Characters of `strftime "%Y-%m-%d_%H:%M:%S"`: `%Y` is the plain
decimal year (glibc pads years only below four digits, and every year
reached from a non-negative instant has at least four). -/
def strftimeChars (tm : Tm) : List Char :=
  decDigits tm.tm_year ++ (('-' :: pad2 tm.tm_mon) ++ (('-' :: pad2 tm.tm_mday) ++
    (('_' :: pad2 tm.tm_hour) ++ ((':' :: pad2 tm.tm_min) ++ (':' :: pad2 tm.tm_sec)))))

/-- `get_interval` from the source: the window label, start and end
timestamps joined by an underscore. -/
def get_interval (start_time : Nat) (rate : Nat) : String :=
  ⟨strftimeChars (gmtime start_time) ++ ('_' :: strftimeChars (gmtime (start_time + rate)))⟩

/-! ## The upload filename filter

`PATTERN = re.compile("SDRSharp_[0-9]{8}_[0-9]{6}Z_[0-9]{9}Hz_IQ.png$")`
and acceptance is `bool(PATTERN.match(filename))`.  The regex is a fixed
length token sequence, so `re.match` needs no backtracking: literal
runs, counted digit classes, one unescaped `.` (any character except a
newline), and `$` (end of string, or just before one trailing
newline). -/

/-- Consume exactly `n` decimal digits. -/
def digitsN : Nat → List Char → Option (List Char)
  | 0, cs => some cs
  | n + 1, c :: cs => if c.isDigit then digitsN n cs else none
  | _ + 1, [] => none

/-- Consume a literal token. -/
def litTok : List Char → List Char → Option (List Char)
  | [], cs => some cs
  | p :: ps, c :: cs => if c = p then litTok ps cs else none
  | _ :: _, [] => none

/-- Consume one character that is not a newline (the regex `.`). -/
def anyChar : List Char → Option (List Char)
  | c :: cs => if c = '\n' then none else some cs
  | [] => none

/-- Model of `bool(PATTERN.match(filename))`. -/
def PATTERN_match (s : String) : Bool :=
  match (((((((( litTok "SDRSharp_".data s.data).bind (digitsN 8)).bind
      (litTok "_".data)).bind (digitsN 6)).bind (litTok "Z_".data)).bind
      (digitsN 9)).bind (litTok "Hz_IQ".data)).bind anyChar).bind (litTok "png".data) with
  | some [] => true
  | some ['\n'] => true
  | _ => false

/-! ## Filename stems: `os.path.splitext` -/

/-- Index of the dot starting the extension, if any: the last dot of the
name (Python applies this to the basename; the callers here only pass
bare filenames or paths whose directory part is dot-free). -/
def lastDotIdx (cs : List Char) : Option Nat :=
  (cs.reverse.findIdx? (· == '.')).map (fun k => cs.length - 1 - k)

/-- `os.path.splitext(f)[0]`: drop the extension, except when every
character before the candidate dot is itself a dot. -/
def stem (f : String) : String :=
  match lastDotIdx f.data with
  | none => f
  | some i => if (f.data.take i).all (· == '.') then f else ⟨f.data.take i⟩

/-- Derived-artifact name of an input file:
`os.path.splitext(f)[0] + "_geo.tif"`. -/
def geoName (f : String) : String := stem f ++ "_geo.tif"

/-! ## Filesystem model

Directories are an association list from path to contents; a directory's
contents are an association list from filename to an opaque content
blob.  All operations act on the first occurrence of a key. -/

/-- Contents of one directory: filename / content pairs. -/
abbrev Dir := List (String × Nat)

/-- The filesystem: directory path / contents pairs. -/
abbrev FS := List (String × Dir)

/-- First-occurrence association lookup. -/
def dlookup {α : Type} : List (String × α) → String → Option α
  | [], _ => none
  | (k, v) :: rest, p => if k = p then some v else dlookup rest p

/-- Write (create or overwrite) a file inside one directory's contents. -/
def fsWrite : Dir → String → Nat → Dir
  | [], name, c => [(name, c)]
  | (n, v) :: rest, name, c => if n = name then (name, c) :: rest else (n, v) :: fsWrite rest name c

/-- `os.path.isdir`. -/
def isdir (fs : FS) (p : String) : Bool := (dlookup fs p).isSome

/-- `os.listdir` (empty for a missing directory; `update` treats the two
alike). -/
def listdir (fs : FS) (p : String) : Dir := (dlookup fs p).getD []

/-- `os.mkdir` on a path known to be absent. -/
def mkdirFS (fs : FS) (p : String) : FS := (p, []) :: fs

/-- Write a file into directory `p` (creating the entry if the directory
is somehow missing; every call site guards existence first). -/
def dirWrite : FS → String → String → Nat → FS
  | [], p, name, c => [(p, [(name, c)])]
  | (q, d) :: rest, p, name, c =>
    if q = p then (q, fsWrite d name c) :: rest else (q, d) :: dirWrite rest p name c

/-- Read a file's content from directory `p`. -/
def dirRead (fs : FS) (p name : String) : Option Nat := dlookup (listdir fs p) name

/-- Remove a file from directory `p`. -/
def fsErase : FS → String → String → FS
  | [], _, _ => []
  | (q, d) :: rest, p, name =>
    if q = p then (q, d.filter (fun x => !(x.1 == name))) :: rest else (q, d) :: fsErase rest p name

/-- `os.rename` of each listed file out of `dp` into `nd`, in order. -/
def moveAll (dp nd : String) (ls : Dir) (fs : FS) : FS :=
  ls.foldl (fun acc e => dirWrite (fsErase acc dp e.1) nd e.1 e.2) fs

/-! ## Server state and operations -/

/-- The JSON configuration dict: the window counter and the
counter-to-label entries appended as windows complete (`update_rate` is
read once at start-up into the state's `rate` field). -/
structure Config where
  counter : Nat
  entries : List (Nat × String)
  deriving DecidableEq

/-- Global server state: the window cursor `start_date`, the constant
`RATE`, the in-memory `conf`, the durably persisted copy of the
configuration (`conf.json` on disk), the filesystem, and event logs for
`merge` invocations, gdal2tiles invocations and reported per-file
failures. -/
structure ServerState where
  start_date : Nat
  rate : Nat
  conf : Config
  saved : Config
  fs : FS
  merges : List (List String)
  tiled : List (String × String)
  reported : List String
  deriving DecidableEq

/-- `APP.root_path`, abstracted. -/
def root_path : String := ""

/-- Images directory of the window starting at `t`. -/
def imgDir (t rate : Nat) : String := root_path ++ "/images/img" ++ get_interval t rate

/-- Tiles directory of the window starting at `t`. -/
def tmsDir (t rate : Nat) : String := root_path ++ "/tms/tms" ++ get_interval t rate

/-- Success/failure oracle for the external image-science collaborators
(modelled from the spec: they are black boxes that either complete or
raise; a per-file stage produces the artifact exactly when it
succeeds). -/
structure Oracle where
  fileOk : String → Bool
  prepOut : String → Nat
  setNodata : Nat → Nat
  mergeOk : Bool
  mergeOut : Nat

/-- A raised exception: its tag plus the global state at the raise. -/
abbrev Exc := String × ServerState

/-- `upload_page` (POST branch): compute the current window directory
from the live cursor, create it if absent, then store every request
file whose name matches `PATTERN` under `sat_type + "_" + filename`
(existing files are overwritten); non-matching files are skipped
silently. -/
def upload_page (σ : ServerState) (sat_type : String) (files : List (String × Nat)) :
    ServerState :=
  let dir_path := imgDir σ.start_date σ.rate
  let fs1 := if isdir σ.fs dir_path then σ.fs else mkdirFS σ.fs dir_path
  { σ with
    fs := files.foldl
      (fun fs f => if PATTERN_match f.1 then dirWrite fs dir_path (sat_type ++ "_" ++ f.1) f.2 else fs)
      fs1 }

/-- `save_conf`: persist the in-memory configuration to disk. -/
def save_conf (σ : ServerState) : ServerState := { σ with saved := σ.conf }

/-- The per-file loop of `process`: for each image run
preprocess / save_metadata / georef_tif; a failure is caught, printed
(recorded in `reported`) and the loop continues; on success the derived
artifact is written next to the input. -/
def processLoop (o : Oracle) (dir_path : String) (images : List String)
    (fs : FS) (reported : List String) : FS × List String :=
  images.foldl
    (fun acc img =>
      if o.fileOk img then (dirWrite acc.1 dir_path (geoName img) (o.prepOut img), acc.2)
      else (acc.1, acc.2 ++ [img]))
    (fs, reported)

/-- `process(dir_path, tms_path, images)`: run the per-file loop, then
branch on `len(georeferenced)` — which equals `len(images)`, the number
of inputs, successful or not.  More than one input: call `merge` on all
artifact paths (it may raise) and tile.  Exactly one input: `copyfile`
the single artifact path (raising if that file does not exist),
normalize its no-data value, and tile.  Zero inputs: nothing.  Finally
`save_conf()` persists the configuration as it is at this moment. -/
def process (o : Oracle) (σ : ServerState) (dir_path tms_path : String)
    (images : List String) : Except Exc ServerState :=
  let georeferenced := images.map (fun f => dir_path ++ "/" ++ geoName f)
  let lr := processLoop o dir_path images σ.fs σ.reported
  let σ1 := { σ with fs := lr.1, reported := lr.2 }
  let merged_file := dir_path ++ "/merged.tif"
  match images with
  | _ :: _ :: _ =>
    let σm := { σ1 with merges := georeferenced :: σ1.merges }
    if o.mergeOk then
      Except.ok (save_conf
        { σm with
          fs := dirWrite σm.fs dir_path "merged.tif" o.mergeOut,
          tiled := (merged_file, tms_path) :: σm.tiled })
    else Except.error ("merge", σm)
  | [a] =>
    match dirRead σ1.fs dir_path (geoName a) with
    | none => Except.error ("copyfile", σ1)
    | some c =>
      Except.ok (save_conf
        { σ1 with
          fs := dirWrite σ1.fs dir_path "merged.tif" (o.setNodata c),
          tiled := (merged_file, tms_path) :: σ1.tiled })
  | [] => Except.ok (save_conf σ1)

/-- The straggler test of `move_unprocessed_files`: kept files are those
in the snapshot `images`, their derived-artifact names, and the merged
output. -/
def stragglerP (images : List String) (e : String × Nat) : Bool :=
  !(images.contains e.1) && !((images.map geoName).contains e.1) && !(e.1 == "merged.tif")

/-- `move_unprocessed_files(dir_path, images)`: collect the stragglers;
if there are any, `os.mkdir` the next window's directory — computed from
the already advanced cursor — unconditionally (so it raises
`FileExistsError` if that directory already exists) and `os.rename`
each straggler into it. -/
def move_unprocessed_files (σ : ServerState) (dir_path : String) (images : List String) :
    Except Exc ServerState :=
  let not_processed := (listdir σ.fs dir_path).filter (stragglerP images)
  if not_processed.isEmpty then Except.ok σ
  else
    let new_dir_path := imgDir σ.start_date σ.rate
    if isdir σ.fs new_dir_path then Except.error ("mkdir", σ)
    else Except.ok { σ with fs := moveAll dir_path new_dir_path not_processed (mkdirFS σ.fs new_dir_path) }

/-- `update()`: one tick.  If the current window's directory is absent
or empty, only advance the cursor.  Otherwise snapshot the file list,
run `process` (an exception propagates: nothing after it runs), advance
the cursor, run `move_unprocessed_files` (an exception propagates:
the configuration append is skipped), then append the completed
window's label under the current counter and increment the counter. -/
def update (o : Oracle) (σ : ServerState) : Except Exc ServerState :=
  let interval := get_interval σ.start_date σ.rate
  let dir_path := root_path ++ "/images/img" ++ interval
  if !(isdir σ.fs dir_path) || (listdir σ.fs dir_path).isEmpty then
    Except.ok { σ with start_date := σ.start_date + σ.rate }
  else
    let images := (listdir σ.fs dir_path).map Prod.fst
    let tms_path := root_path ++ "/tms/tms" ++ interval
    match process o σ dir_path tms_path images with
    | Except.error e => Except.error e
    | Except.ok σ1 =>
      let σ2 := { σ1 with start_date := σ1.start_date + σ1.rate }
      match move_unprocessed_files σ2 dir_path images with
      | Except.error e => Except.error e
      | Except.ok σ3 =>
        Except.ok { σ3 with
          conf := { counter := σ3.conf.counter + 1,
                    entries := (σ3.conf.counter, interval) :: σ3.conf.entries } }

/-! ## Observables used to state the claims -/

/-- Strict lexicographic order on (year, day-of-year) or (month, day)
pairs. -/
abbrev pairLt (a b : Nat × Nat) : Prop := a.1 < b.1 ∨ (a.1 = b.1 ∧ a.2 < b.2)

/-- Strict lexicographic order on broken-down times. -/
abbrev tmLex (a b : Tm) : Prop :=
  a.tm_year < b.tm_year ∨ (a.tm_year = b.tm_year ∧
    (a.tm_mon < b.tm_mon ∨ (a.tm_mon = b.tm_mon ∧
      (a.tm_mday < b.tm_mday ∨ (a.tm_mday = b.tm_mday ∧
        (a.tm_hour < b.tm_hour ∨ (a.tm_hour = b.tm_hour ∧
          (a.tm_min < b.tm_min ∨ (a.tm_min = b.tm_min ∧ a.tm_sec < b.tm_sec)))))))))

/-- Field ranges guaranteeing the 19-character fixed-width label. -/
abbrev tmRange (tm : Tm) : Prop :=
  1000 ≤ tm.tm_year ∧ tm.tm_year < 10000 ∧ tm.tm_mon < 100 ∧ tm.tm_mday < 100 ∧
    tm.tm_hour < 100 ∧ tm.tm_min < 100 ∧ tm.tm_sec < 100

/-- Error tag and cursor position of a raised tick, `none` for a clean
one. -/
def excInfo : Except Exc ServerState → Option (String × Nat)
  | Except.error (e, σ) => some (e, σ.start_date)
  | Except.ok _ => none

/-- How one tick treats the cursor: a clean tick advances it by exactly
one width; a tick that raises in `move_unprocessed_files` (tag
`"mkdir"`) has already advanced it; a tick that raises inside `process`
(tags `"merge"`/`"copyfile"`) leaves it unchanged. -/
def cursorFact (o : Oracle) (σ : ServerState) : Prop :=
  match update o σ with
  | Except.ok σ' => σ'.start_date = σ.start_date + σ.rate
  | Except.error (e, σ') =>
    (e = "mkdir" ∧ σ'.start_date = σ.start_date + σ.rate) ∨
    ((e = "merge" ∨ e = "copyfile") ∧ σ'.start_date = σ.start_date)

/-- How `process` produces the merged output: the branch is taken on the
number of input files.  Two or more inputs: `merge` is invoked on the
artifact paths of all inputs and, if it succeeds, `merged.tif` holds the
merge output and tiling runs.  Exactly one input: `merged.tif` is the
no-data-normalized copy of the single artifact, which must exist (else
`copyfile` raises), and tiling runs.  Zero inputs: no merge call, no
tiling, `merged.tif` untouched. -/
def mergeFact (o : Oracle) (σ : ServerState) (dp tms : String) (images : List String) : Prop :=
  match process o σ dp tms images with
  | Except.ok σ' =>
      (2 ≤ images.length →
          σ'.merges = images.map (fun f => dp ++ "/" ++ geoName f) :: σ.merges ∧
          dirRead σ'.fs dp "merged.tif" = some o.mergeOut ∧
          σ'.tiled = (dp ++ "/merged.tif", tms) :: σ.tiled) ∧
      (∀ a, images = [a] →
          σ'.merges = σ.merges ∧
          (∃ c, dirRead (processLoop o dp images σ.fs σ.reported).1 dp (geoName a) = some c ∧
            dirRead σ'.fs dp "merged.tif" = some (o.setNodata c)) ∧
          σ'.tiled = (dp ++ "/merged.tif", tms) :: σ.tiled) ∧
      (images = [] →
          σ'.merges = σ.merges ∧ σ'.tiled = σ.tiled ∧
          dirRead σ'.fs dp "merged.tif" = dirRead σ.fs dp "merged.tif")
  | Except.error e =>
      (e.1 = "merge" ∨ e.1 = "copyfile") ∧
      (e.1 = "merge" → 2 ≤ images.length ∧ o.mergeOk = false ∧
        e.2.merges = images.map (fun f => dp ++ "/" ++ geoName f) :: σ.merges ∧
        e.2.tiled = σ.tiled) ∧
      (e.1 = "copyfile" → ∃ a, images = [a] ∧
        dirRead (processLoop o dp images σ.fs σ.reported).1 dp (geoName a) = none)

/-- Configuration bookkeeping of a tick that completes on a non-empty
window: counter up by one, exactly one new entry keyed by the
pre-increment counter, but the configuration persisted during the run
(by `save_conf` inside `process`) is the one from before the append. -/
def confFact (o : Oracle) (σ : ServerState) : Prop :=
  match update o σ with
  | Except.ok σ' =>
      σ'.conf.counter = σ.conf.counter + 1 ∧
      σ'.conf.entries = (σ.conf.counter, get_interval σ.start_date σ.rate) :: σ.conf.entries ∧
      σ'.saved = σ.conf ∧
      σ'.conf.entries.length = σ'.saved.entries.length + 1
  | Except.error _ => True

/-- Which window directories an operation creates: a POST to
`upload_page` always creates the current window's directory (even when
no file matches); a tick creates at most the next window's directory
(when stragglers are relocated), and a raising tick creates none. -/
def dirCreationFact (o : Oracle) (σ : ServerState) (sat_type : String)
    (files : List (String × Nat)) : Prop :=
  ((upload_page σ sat_type files).fs.map Prod.fst =
    if isdir σ.fs (imgDir σ.start_date σ.rate) then σ.fs.map Prod.fst
    else imgDir σ.start_date σ.rate :: σ.fs.map Prod.fst) ∧
  (match update o σ with
   | Except.ok σ' => σ'.fs.map Prod.fst = σ.fs.map Prod.fst ∨
       σ'.fs.map Prod.fst = imgDir (σ.start_date + σ.rate) σ.rate :: σ.fs.map Prod.fst
   | Except.error e => e.2.fs.map Prod.fst = σ.fs.map Prod.fst)

/-- Directory-creation behavior of the reconciliation step: with no
stragglers nothing at all happens; with stragglers `os.mkdir` is run
unconditionally, raising when the next window's directory already
exists and creating exactly it otherwise. -/
def moveFact (σ : ServerState) (dir_path : String) (images : List String) : Prop :=
  if ((listdir σ.fs dir_path).filter (stragglerP images)).isEmpty then
    move_unprocessed_files σ dir_path images = Except.ok σ
  else if isdir σ.fs (imgDir σ.start_date σ.rate) then
    move_unprocessed_files σ dir_path images = Except.error ("mkdir", σ)
  else
    ∃ σ', move_unprocessed_files σ dir_path images = Except.ok σ' ∧
      σ'.fs.map Prod.fst = imgDir σ.start_date σ.rate :: σ.fs.map Prod.fst

/-! ## Concrete states and oracles for counterexamples and witnesses -/

/-- Fresh configuration. -/
def conf0 : Config := ⟨0, []⟩

/-- Oracle where every stage succeeds. -/
def oAllOk : Oracle := ⟨fun _ => true, fun _ => 5, fun c => c, true, 99⟩

/-- Oracle where only `SDRa.png` processes successfully; `merge`
succeeds. -/
def oHalf : Oracle := ⟨fun f => f == "SDRa.png", fun _ => 5, fun c => c, true, 99⟩

/-- Oracle where every per-file stage succeeds but `merge` raises. -/
def oMergeFail : Oracle := ⟨fun _ => true, fun _ => 5, fun c => c, false, 99⟩

/-- Empty server state. -/
def st0 : ServerState := ⟨0, 60, conf0, conf0, [], [], [], []⟩

/-- Two captures in the plain directory `/d` (for `process`-level
statements). -/
def stA : ServerState :=
  ⟨0, 60, conf0, conf0, [("/d", [("SDRa.png", 1), ("SDRb.png", 2)])], [], [], []⟩

/-- Two captures in the current window's directory. -/
def stB : ServerState :=
  ⟨0, 60, conf0, conf0, [(imgDir 0 60, [("SDRa.png", 1), ("SDRb.png", 2)])], [], [], []⟩

/-- One capture in the current window's directory. -/
def stC : ServerState :=
  ⟨0, 60, conf0, conf0, [(imgDir 0 60, [("SDRf.png", 4)])], [], [], []⟩

/-- A straggler in an old directory; the cursor has already advanced. -/
def stE : ServerState :=
  ⟨60, 60, conf0, conf0, [("/old", [("left.png", 9)])], [], [], []⟩

/-- A straggler in an old directory while the next window's directory
already exists (for example created by a late upload). -/
def stF : ServerState :=
  ⟨60, 60, conf0, conf0, [("/old", [("SDRx", 3)]), (imgDir 60 60, [])], [], [], []⟩

/-! # Theorems -/

set_option maxRecDepth 10000

/-! ## Decimal digit strings -/

theorem decDigitsAux_eq : ∀ (n f : Nat), n < f → decDigitsAux f n = decDigits n := by
  intro n
  induction n using Nat.strong_induction_on with
  | _ n ih =>
    intro f hf
    match f with
    | fuel + 1 =>
      by_cases h10 : n < 10
      · simp [decDigitsAux, decDigits, h10]
      · have hdiv : n / 10 < n := Nat.div_lt_self (by omega) (by omega)
        have e1 : decDigitsAux (fuel + 1) n = decDigitsAux fuel (n / 10) ++ [digChar (n % 10)] := by
          simp [decDigitsAux, h10]
        have e2 : decDigits n = decDigitsAux n (n / 10) ++ [digChar (n % 10)] := by
          simp [decDigits, decDigitsAux, h10]
        rw [e1, e2, ih (n / 10) hdiv fuel (by omega), ih (n / 10) hdiv n (by omega)]

theorem dec_step {n : Nat} (h : 10 ≤ n) :
    decDigits n = decDigits (n / 10) ++ [digChar (n % 10)] := by
  have e2 : decDigits n = decDigitsAux n (n / 10) ++ [digChar (n % 10)] := by
    simp [decDigits, decDigitsAux, show ¬ n < 10 by omega]
  rw [e2, decDigitsAux_eq (n / 10) n (by omega)]

theorem dec_small {n : Nat} (h : n < 10) : decDigits n = [digChar n] := by
  simp [decDigits, decDigitsAux, h]

theorem dec_len_small {n : Nat} (h : n < 10) : (decDigits n).length = 1 := by
  rw [dec_small h]; rfl

theorem dec_len_step {n : Nat} (h : 10 ≤ n) :
    (decDigits n).length = (decDigits (n / 10)).length + 1 := by
  rw [dec_step h]; simp

theorem dec_len_pos (n : Nat) : 1 ≤ (decDigits n).length := by
  by_cases h : n < 10
  · rw [dec_len_small h]
  · rw [dec_len_step (Nat.le_of_not_lt h)]; omega

theorem dec_len4 {n : Nat} (h1 : 1000 ≤ n) (h2 : n < 10000) : (decDigits n).length = 4 := by
  rw [@dec_len_step n (by omega), @dec_len_step (n / 10) (by omega),
    @dec_len_step (n / 10 / 10) (by omega), @dec_len_small (n / 10 / 10 / 10) (by omega)]

theorem digChar_lt_bdd : ∀ b < 10, ∀ a < b, digChar a < digChar b := by decide

theorem digChar_lt {a b : Nat} (h : a < b) (hb : b < 10) : digChar a < digChar b :=
  digChar_lt_bdd b hb a h

/-! ## Lexicographic comparison of character lists -/

theorem lex_append {l1 l2 r1 r2 : List Char} (h : List.Lex (· < ·) l1 l2) :
    l1.length = l2.length → List.Lex (· < ·) (l1 ++ r1) (l2 ++ r2) := by
  induction h with
  | nil => intro hlen; simp at hlen
  | cons h ih => intro hlen; exact List.Lex.cons (ih (by simpa using hlen))
  | rel h => intro _; exact List.Lex.rel h

theorem lex_append_chain {l1 l2 r1 r2 : List Char} (hlen : l1.length = l2.length)
    (h : List.Lex (· < ·) l1 l2 ∨ (l1 = l2 ∧ List.Lex (· < ·) r1 r2)) :
    List.Lex (· < ·) (l1 ++ r1) (l2 ++ r2) := by
  rcases h with h | ⟨rfl, h⟩
  · exact lex_append h hlen
  · exact List.Lex.append_left _ h _

theorem dec_mono : ∀ (b a : Nat), a < b → (decDigits a).length = (decDigits b).length →
    List.Lex (· < ·) (decDigits a) (decDigits b) := by
  intro b
  induction b using Nat.strong_induction_on with
  | _ b ih =>
    intro a hab hlen
    by_cases hb : b < 10
    · rw [dec_small hb, dec_small (by omega)]
      exact List.Lex.rel (digChar_lt hab hb)
    · have ha : 10 ≤ a := by
        by_contra hc
        have hpos := dec_len_pos (b / 10)
        rw [@dec_len_small a (by omega), @dec_len_step b (by omega)] at hlen
        omega
      rw [dec_step ha, @dec_step b (by omega)]
      have hlen' : (decDigits (a / 10)).length = (decDigits (b / 10)).length := by
        rw [@dec_len_step a ha, @dec_len_step b (by omega)] at hlen
        omega
      have hdle : a / 10 ≤ b / 10 := Nat.div_le_div_right (le_of_lt hab)
      rcases lt_or_eq_of_le hdle with hdlt | hdeq
      · exact lex_append (ih (b / 10) (Nat.div_lt_self (by omega) (by omega)) (a / 10) hdlt hlen') hlen'
      · rw [hdeq]
        apply List.Lex.append_left
        exact List.Lex.rel (digChar_lt (by omega) (by omega))

theorem pad2_len_bdd : ∀ n < 100, (pad2 n).length = 2 := by decide

theorem pad2_len {n : Nat} (h : n < 100) : (pad2 n).length = 2 := pad2_len_bdd n h

theorem pad2_lt_bdd : ∀ b < 100, ∀ a < b, pad2 a < pad2 b := by decide

theorem pad2_lex {a b : Nat} (h : a < b) (hb : b < 100) :
    List.Lex (· < ·) (pad2 a) (pad2 b) :=
  pad2_lt_bdd b hb a h

/-! ## Year arithmetic -/

theorem yearLen_ge (y : Nat) : 365 ≤ yearLen y := by
  unfold yearLen; split <;> omega

theorem yearLen_le (y : Nat) : yearLen y ≤ 366 := by
  unfold yearLen; split <;> omega

theorem daysFrom_succ (y n : Nat) : daysFrom y (n + 1) = daysFrom y n + yearLen (y + n) := by
  induction n generalizing y with
  | zero => simp [daysFrom]
  | succ n ih =>
    show yearLen y + daysFrom (y + 1) (n + 1) = yearLen y + daysFrom (y + 1) n + yearLen (y + (n + 1))
    rw [ih (y + 1), show y + 1 + n = y + (n + 1) by omega]
    omega

theorem daysFrom_add (y a b : Nat) : daysFrom y (a + b) = daysFrom y a + daysFrom (y + a) b := by
  induction b with
  | zero => simp [daysFrom]
  | succ b ih =>
    rw [show a + (b + 1) = (a + b) + 1 by omega, daysFrom_succ, ih, daysFrom_succ,
      show y + (a + b) = y + a + b by omega]
    omega

theorem yearLen_400 (y : Nat) : yearLen (y + 400) = yearLen y := by
  have h4 : (y + 400) % 4 = y % 4 := by omega
  have h100 : (y + 400) % 100 = y % 100 := by omega
  have h400 : (y + 400) % 400 = y % 400 := by omega
  simp [yearLen, isLeap, h4, h100, h400]

theorem daysFrom_400 : ∀ y, daysFrom y (400 : Nat) = 146097 := by
  intro y
  induction y with
  | zero => decide
  | succ y ih =>
    have h1 : daysFrom y (400 + 1) = yearLen y + daysFrom (y + 1) 400 := rfl
    have h2 : daysFrom y (400 + 1) = daysFrom y 400 + yearLen (y + 400) :=
      daysFrom_succ y 400
    rw [yearLen_400] at h2
    omega

theorem daysFrom_mul400 (y k : Nat) : daysFrom y (400 * k) = 146097 * k := by
  induction k with
  | zero => simp [daysFrom]
  | succ k ih =>
    rw [show 400 * (k + 1) = 400 * k + 400 by ring, daysFrom_add, ih, daysFrom_400]
    ring

theorem daysFrom_le_mono (y : Nat) {n m : Nat} (h : n ≤ m) : daysFrom y n ≤ daysFrom y m := by
  have := daysFrom_add y n (m - n)
  rw [show n + (m - n) = m by omega] at this
  omega

/-! ## The year search -/

theorem findYear_inv : ∀ (fuel y d : Nat), d < 365 * fuel + 365 →
    y ≤ (findYear fuel y d).1 ∧
    (findYear fuel y d).2 < yearLen (findYear fuel y d).1 ∧
    d = daysFrom y ((findYear fuel y d).1 - y) + (findYear fuel y d).2 := by
  intro fuel
  induction fuel with
  | zero =>
    intro y d h
    have := yearLen_ge y
    refine ⟨le_refl y, by simpa [findYear] using by omega, ?_⟩
    simp [findYear, daysFrom]
  | succ fuel ih =>
    intro y d h
    by_cases hd : d < yearLen y
    · simp [findYear, hd, daysFrom]
    · have hy := yearLen_ge y
      have h' : d - yearLen y < 365 * fuel + 365 := by omega
      obtain ⟨h1, h2, h3⟩ := ih (y + 1) (d - yearLen y) h'
      have e : findYear (fuel + 1) y d = findYear fuel (y + 1) (d - yearLen y) := by
        simp [findYear, hd]
      rw [e]
      refine ⟨by omega, h2, ?_⟩
      have hsplit : daysFrom y ((findYear fuel (y + 1) (d - yearLen y)).1 - y) =
          yearLen y + daysFrom (y + 1) ((findYear fuel (y + 1) (d - yearLen y)).1 - (y + 1)) := by
        rw [show (findYear fuel (y + 1) (d - yearLen y)).1 - y =
          ((findYear fuel (y + 1) (d - yearLen y)).1 - (y + 1)) + 1 by omega]
        rfl
      omega

theorem gmtimeDays_inv (d : Nat) :
    1970 ≤ (gmtimeDays d).1 ∧ (gmtimeDays d).2 < yearLen (gmtimeDays d).1 ∧
    d = daysFrom 1970 ((gmtimeDays d).1 - 1970) + (gmtimeDays d).2 := by
  have hrest : d % 146097 < 146097 := Nat.mod_lt _ (by omega)
  obtain ⟨h1, h2, h3⟩ :=
    findYear_inv 500 (1970 + 400 * (d / 146097)) (d % 146097) (by omega)
  unfold gmtimeDays
  refine ⟨by omega, h2, ?_⟩
  have harg : (findYear 500 (1970 + 400 * (d / 146097)) (d % 146097)).1 - 1970 =
      400 * (d / 146097) +
        ((findYear 500 (1970 + 400 * (d / 146097)) (d % 146097)).1 -
          (1970 + 400 * (d / 146097))) := by
    omega
  rw [harg, daysFrom_add, daysFrom_mul400]
  omega

theorem pairLt_trans {a b c : Nat × Nat} (h1 : pairLt a b) (h2 : pairLt b c) : pairLt a c := by
  unfold pairLt at *
  omega

theorem gmtimeDays_mono {d1 d2 : Nat} (h : d1 < d2) : pairLt (gmtimeDays d1) (gmtimeDays d2) := by
  obtain ⟨a1, b1, c1⟩ := gmtimeDays_inv d1
  obtain ⟨a2, b2, c2⟩ := gmtimeDays_inv d2
  by_contra hc
  unfold pairLt at hc
  push_neg at hc
  obtain ⟨hY, hD⟩ := hc
  rcases Nat.lt_or_ge (gmtimeDays d2).1 (gmtimeDays d1).1 with hYlt | hYge
  · have s1 : daysFrom 1970 ((gmtimeDays d2).1 - 1970 + 1) =
        daysFrom 1970 ((gmtimeDays d2).1 - 1970) + yearLen (gmtimeDays d2).1 := by
      rw [daysFrom_succ, show 1970 + ((gmtimeDays d2).1 - 1970) = (gmtimeDays d2).1 by omega]
    have s2 : daysFrom 1970 ((gmtimeDays d2).1 - 1970 + 1) ≤
        daysFrom 1970 ((gmtimeDays d1).1 - 1970) := daysFrom_le_mono _ (by omega)
    omega
  · have hYeq : (gmtimeDays d1).1 = (gmtimeDays d2).1 := by omega
    have := hD hYeq
    rw [hYeq] at c1
    omega

/-! ## Months -/

theorem monthLens_sum (b : Bool) : (monthLens b).sum = if b then 366 else 365 := by
  cases b <;> decide

theorem monthLens_sum_isLeap (y : Nat) : (monthLens (isLeap y)).sum = yearLen y := by
  rw [monthLens_sum]
  unfold yearLen
  rcases isLeap y <;> simp

theorem findMonth_step : ∀ (leap : Bool), ∀ d < 365, d + 1 < (monthLens leap).sum + 1 →
    pairLt (findMonth (monthLens leap) 1 d) (findMonth (monthLens leap) 1 (d + 1)) := by
  decide

theorem findMonth_mono (leap : Bool) : ∀ d2 d1 : Nat, d1 < d2 → d2 < (monthLens leap).sum →
    pairLt (findMonth (monthLens leap) 1 d1) (findMonth (monthLens leap) 1 d2) := by
  intro d2
  induction d2 with
  | zero => omega
  | succ d2 ih =>
    intro d1 h1 h2
    have hsum : (monthLens leap).sum ≤ 366 := by cases leap <;> decide
    rcases Nat.lt_or_ge d1 d2 with hlt | hge
    · exact pairLt_trans (ih d1 hlt (by omega)) (findMonth_step leap d2 (by omega) (by omega))
    · have heq : d1 = d2 := by omega
      subst heq
      exact findMonth_step leap d1 (by omega) (by omega)

theorem findMonth_range : ∀ (leap : Bool), ∀ d < 366, d < (monthLens leap).sum →
    1 ≤ (findMonth (monthLens leap) 1 d).1 ∧ (findMonth (monthLens leap) 1 d).1 ≤ 12 ∧
    (findMonth (monthLens leap) 1 d).2 < 31 := by
  decide

/-! ## Assembling `gmtime` monotonicity -/

theorem divmod_pairLt {k a b : Nat} (h : a < b) :
    a / k < b / k ∨ (a / k = b / k ∧ a % k < b % k) := by
  rcases Nat.lt_or_ge (a / k) (b / k) with h1 | h1
  · exact Or.inl h1
  · have heq : a / k = b / k := le_antisymm (Nat.div_le_div_right (le_of_lt h)) h1
    refine Or.inr ⟨heq, ?_⟩
    have e1 := Nat.div_add_mod a k
    have e2 := Nat.div_add_mod b k
    rw [heq] at e1
    omega

theorem gmtime_year (t : Nat) : (gmtime t).tm_year = (gmtimeDays (t / 86400)).1 := rfl

theorem gmtime_mon (t : Nat) : (gmtime t).tm_mon =
    (findMonth (monthLens (isLeap (gmtimeDays (t / 86400)).1)) 1 (gmtimeDays (t / 86400)).2).1 := rfl

theorem gmtime_mday (t : Nat) : (gmtime t).tm_mday =
    (findMonth (monthLens (isLeap (gmtimeDays (t / 86400)).1)) 1 (gmtimeDays (t / 86400)).2).2 + 1 := rfl

theorem gmtime_hour (t : Nat) : (gmtime t).tm_hour = t % 86400 / 3600 := rfl

theorem gmtime_min (t : Nat) : (gmtime t).tm_min = t % 86400 % 3600 / 60 := rfl

theorem gmtime_sec (t : Nat) : (gmtime t).tm_sec = t % 86400 % 60 := rfl

theorem gmtime_mono {t1 t2 : Nat} (h : t1 < t2) :
    tmLex (gmtime t1) (gmtime t2) := by
  unfold tmLex
  rw [gmtime_year, gmtime_year, gmtime_mon, gmtime_mon, gmtime_mday, gmtime_mday,
    gmtime_hour, gmtime_hour, gmtime_min, gmtime_min, gmtime_sec, gmtime_sec]
  rcases divmod_pairLt (k := 86400) h with hd | ⟨hdeq, hs⟩
  · have hmono := gmtimeDays_mono hd
    unfold pairLt at hmono
    rcases hmono with hy | ⟨hyeq, hdoy⟩
    · exact Or.inl hy
    · refine Or.inr ⟨hyeq, ?_⟩
      have hdoy2lt := (gmtimeDays_inv (t2 / 86400)).2.1
      have hm := findMonth_mono (isLeap (gmtimeDays (t2 / 86400)).1)
        (gmtimeDays (t2 / 86400)).2 (gmtimeDays (t1 / 86400)).2 hdoy
        (by rw [monthLens_sum_isLeap]; exact hdoy2lt)
      rw [hyeq]
      unfold pairLt at hm
      rcases hm with hm | ⟨hmeq, hday⟩
      · exact Or.inl hm
      · exact Or.inr ⟨hmeq, Or.inl (by omega)⟩
  · rw [hdeq]
    refine Or.inr ⟨rfl, Or.inr ⟨rfl, Or.inr ⟨rfl, ?_⟩⟩⟩
    rcases divmod_pairLt (k := 3600) hs with hh | ⟨hheq, hrem⟩
    · exact Or.inl hh
    · refine Or.inr ⟨hheq, ?_⟩
      rcases divmod_pairLt (k := 60) hrem with hmi | ⟨hmieq, hss⟩
      · exact Or.inl hmi
      · refine Or.inr ⟨hmieq, ?_⟩
        have e1 : t1 % 86400 % 3600 % 60 = t1 % 86400 % 60 :=
          Nat.mod_mod_of_dvd _ (by norm_num)
        have e2 : t2 % 86400 % 3600 % 60 = t2 % 86400 % 60 :=
          Nat.mod_mod_of_dvd _ (by norm_num)
        omega

theorem gmtime_range {t : Nat} (hb : t ≤ 253402300799) : tmRange (gmtime t) := by
  obtain ⟨h1, h2, h3⟩ := gmtimeDays_inv (t / 86400)
  have hY : (gmtimeDays (t / 86400)).1 < 10000 := by
    by_contra hge
    push_neg at hge
    have hmono : daysFrom 1970 8030 ≤ daysFrom 1970 ((gmtimeDays (t / 86400)).1 - 1970) :=
      daysFrom_le_mono _ (by omega)
    have hval : daysFrom 1970 (8030 : Nat) = 2932897 := by
      rw [show (8030 : Nat) = 400 * 20 + 30 by norm_num, daysFrom_add, daysFrom_mul400]
      have h30 : daysFrom (1970 + 400 * 20) (30 : Nat) = 10957 := by decide
      omega
    have hdays : t / 86400 ≤ 2932896 := by omega
    omega
  have hdoy366 : (gmtimeDays (t / 86400)).2 < 366 := lt_of_lt_of_le h2 (yearLen_le _)
  have hdoySum : (gmtimeDays (t / 86400)).2 <
      (monthLens (isLeap (gmtimeDays (t / 86400)).1)).sum := by
    rw [monthLens_sum_isLeap]; exact h2
  obtain ⟨hm1, hm2, hm3⟩ := findMonth_range (isLeap (gmtimeDays (t / 86400)).1)
    (gmtimeDays (t / 86400)).2 hdoy366 hdoySum
  unfold tmRange
  rw [gmtime_year, gmtime_mon, gmtime_mday, gmtime_hour, gmtime_min, gmtime_sec]
  refine ⟨by omega, by omega, by omega, by omega, by omega, by omega, by omega⟩

/-! ## The label string -/

theorem strf_len {tm : Tm} (h : tmRange tm) : (strftimeChars tm).length = 19 := by
  obtain ⟨h1, h2, h3, h4, h5, h6, h7⟩ := h
  unfold strftimeChars
  rw [List.length_append, List.length_append, List.length_append, List.length_append,
    List.length_append]
  simp only [List.length_cons]
  rw [dec_len4 h1 h2, pad2_len h3, pad2_len h4, pad2_len h5, pad2_len h6, pad2_len h7]

theorem strf_mono {tm1 tm2 : Tm} (hlex : tmLex tm1 tm2) (h1 : tmRange tm1) (h2 : tmRange tm2) :
    List.Lex (· < ·) (strftimeChars tm1) (strftimeChars tm2) := by
  obtain ⟨a1, a2, a3, a4, a5, a6, a7⟩ := h1
  obtain ⟨b1, b2, b3, b4, b5, b6, b7⟩ := h2
  unfold strftimeChars
  apply lex_append_chain (by rw [dec_len4 a1 a2, dec_len4 b1 b2])
  rcases hlex with hy | ⟨hyeq, hrest⟩
  · exact Or.inl (dec_mono _ _ hy (by rw [dec_len4 a1 a2, dec_len4 b1 b2]))
  · refine Or.inr ⟨by rw [hyeq], ?_⟩
    apply lex_append_chain (by simp [pad2_len a3, pad2_len b3])
    rcases hrest with hm | ⟨hmeq, hrest⟩
    · exact Or.inl (List.Lex.cons (pad2_lex hm b3))
    · refine Or.inr ⟨by rw [hmeq], ?_⟩
      apply lex_append_chain (by simp [pad2_len a4, pad2_len b4])
      rcases hrest with hd | ⟨hdeq, hrest⟩
      · exact Or.inl (List.Lex.cons (pad2_lex hd b4))
      · refine Or.inr ⟨by rw [hdeq], ?_⟩
        apply lex_append_chain (by simp [pad2_len a5, pad2_len b5])
        rcases hrest with hh | ⟨hheq, hrest⟩
        · exact Or.inl (List.Lex.cons (pad2_lex hh b5))
        · refine Or.inr ⟨by rw [hheq], ?_⟩
          apply lex_append_chain (by simp [pad2_len a6, pad2_len b6])
          rcases hrest with hmi | ⟨hmieq, hsec⟩
          · exact Or.inl (List.Lex.cons (pad2_lex hmi b6))
          · refine Or.inr ⟨by rw [hmieq], ?_⟩
            exact List.Lex.cons (pad2_lex hsec b7)

/-! ## Claim C9 -/

/-- C9, counterexample.  The claim asserts that for every non-negative
instant `t` and width `w > 0` the label of `t + w` is lexically strictly
greater than the label of `t`.  At `t = 253402300799` (the last second
of year 9999) and `w = 1`, the label of `t + w` starts with the
five-digit year `10000`, and `"10000-…" < "9999-…"` lexically, so the
claimed inequality fails. -/
theorem C9_counterexample :
    0 < 1 ∧ ¬ (get_interval 253402300799 1 < get_interval (253402300799 + 1) 1) := by
  refine ⟨by norm_num, fun hlt => ?_⟩
  rw [String.lt_iff_toList_lt] at hlt
  revert hlt
  decide

/-- C9, amended.  `get_interval` is a pure function (recomputation
yields the same label), and as long as both instants stay below the
year-10000 boundary (`t + w ≤ 253402300799`, the last second of year
9999, keeping `%Y` four digits wide) the label of `t + w` is lexically
strictly greater than the label of `t`. -/
theorem C9_label_monotone (t w : Nat) (hw : 0 < w) (hb : t + w ≤ 253402300799) :
    get_interval t w = get_interval t w ∧ get_interval t w < get_interval (t + w) w := by
  refine ⟨rfl, ?_⟩
  rw [String.lt_iff_toList_lt]
  show List.Lex (· < ·)
    (strftimeChars (gmtime t) ++ ('_' :: strftimeChars (gmtime (t + w))))
    (strftimeChars (gmtime (t + w)) ++ ('_' :: strftimeChars (gmtime (t + w + w))))
  exact lex_append
    (strf_mono (gmtime_mono (by omega)) (gmtime_range (by omega)) (gmtime_range hb))
    (by rw [strf_len (gmtime_range (by omega)), strf_len (gmtime_range hb)])

/-- Witness for C9: concrete instant 0 and width 60 satisfy the
hypotheses, and the conclusion follows from `C9_label_monotone`. -/
theorem C9_label_monotone_witness :
    0 < 60 ∧ (0 : Nat) + 60 ≤ 253402300799 ∧
      (get_interval 0 60 = get_interval 0 60 ∧ get_interval 0 60 < get_interval (0 + 60) 60) :=
  ⟨by norm_num, by norm_num, C9_label_monotone 0 60 (by norm_num) (by norm_num)⟩

/-! ## Filesystem lemmas -/

theorem listdir_cons_self (k : String) (d : Dir) (rest : FS) :
    listdir ((k, d) :: rest) k = d := by
  simp [listdir, dlookup]

theorem listdir_cons_ne {k q : String} (d : Dir) (rest : FS) (h : k ≠ q) :
    listdir ((k, d) :: rest) q = listdir rest q := by
  simp [listdir, dlookup, h]

theorem dlookup_fsWrite_self (d : Dir) (name : String) (c : Nat) :
    dlookup (fsWrite d name c) name = some c := by
  induction d with
  | nil => simp [fsWrite, dlookup]
  | cons e rest ih =>
    obtain ⟨n, v⟩ := e
    by_cases h : n = name
    · simp [fsWrite, h, dlookup]
    · simp [fsWrite, h, dlookup, ih]

theorem dlookup_fsWrite_ne (d : Dir) {name m : String} (h : m ≠ name) (c : Nat) :
    dlookup (fsWrite d name c) m = dlookup d m := by
  induction d with
  | nil => simp [fsWrite, dlookup, Ne.symm h]
  | cons e rest ih =>
    obtain ⟨n, v⟩ := e
    by_cases hn : n = name
    · subst hn
      simp [fsWrite, dlookup, Ne.symm h]
    · simp only [fsWrite, if_neg hn, dlookup]
      by_cases hm : n = m <;> simp [hm, ih]

theorem listdir_dirWrite (fs : FS) (p q name : String) (c : Nat) :
    listdir (dirWrite fs p name c) q =
      if q = p then fsWrite (listdir fs p) name c else listdir fs q := by
  induction fs with
  | nil =>
    by_cases h : q = p
    · subst h
      simp [dirWrite, listdir, dlookup, fsWrite]
    · simp [dirWrite, listdir, dlookup, h, Ne.symm h]
  | cons e rest ih =>
    obtain ⟨k, d⟩ := e
    by_cases hk : k = p
    · subst hk
      rw [show dirWrite ((k, d) :: rest) k name c = (k, fsWrite d name c) :: rest from by
        simp [dirWrite]]
      by_cases hq : q = k
      · subst hq
        rw [listdir_cons_self, if_pos rfl, listdir_cons_self]
      · rw [listdir_cons_ne _ _ (fun hh => hq hh.symm), if_neg hq,
          listdir_cons_ne _ _ (fun hh => hq hh.symm)]
    · rw [show dirWrite ((k, d) :: rest) p name c = (k, d) :: dirWrite rest p name c from by
        simp [dirWrite, hk]]
      by_cases hq : q = k
      · subst hq
        rw [listdir_cons_self, if_neg hk, listdir_cons_self]
      · rw [listdir_cons_ne _ _ (fun hh => hq hh.symm), ih,
          listdir_cons_ne _ _ hk, listdir_cons_ne _ _ (fun hh => hq hh.symm)]

theorem listdir_mkdirFS_self (fs : FS) (p : String) : listdir (mkdirFS fs p) p = [] := by
  simp [mkdirFS, listdir, dlookup]

theorem listdir_mkdirFS_ne (fs : FS) {p q : String} (h : q ≠ p) :
    listdir (mkdirFS fs p) q = listdir fs q := by
  simp [mkdirFS, listdir, dlookup, Ne.symm h]

theorem isdir_mkdirFS_self (fs : FS) (p : String) : isdir (mkdirFS fs p) p = true := by
  simp [mkdirFS, isdir, dlookup]

theorem keys_mkdirFS (fs : FS) (p : String) :
    (mkdirFS fs p).map Prod.fst = p :: fs.map Prod.fst := rfl

theorem listdir_fsErase (fs : FS) (p q name : String) :
    listdir (fsErase fs p name) q =
      if q = p then (listdir fs p).filter (fun x => !(x.1 == name)) else listdir fs q := by
  induction fs with
  | nil =>
    by_cases h : q = p <;> simp [fsErase, listdir, dlookup, h]
  | cons e rest ih =>
    obtain ⟨k, d⟩ := e
    by_cases hk : k = p
    · subst hk
      rw [show fsErase ((k, d) :: rest) k name =
          (k, d.filter (fun x => !(x.1 == name))) :: rest from by simp [fsErase]]
      by_cases hq : q = k
      · subst hq
        rw [listdir_cons_self, if_pos rfl, listdir_cons_self]
      · rw [listdir_cons_ne _ _ (fun hh => hq hh.symm), if_neg hq,
          listdir_cons_ne _ _ (fun hh => hq hh.symm)]
    · rw [show fsErase ((k, d) :: rest) p name = (k, d) :: fsErase rest p name from by
        simp [fsErase, hk]]
      by_cases hq : q = k
      · subst hq
        rw [listdir_cons_self, if_neg hk, listdir_cons_self]
      · rw [listdir_cons_ne _ _ (fun hh => hq hh.symm), ih,
          listdir_cons_ne _ _ hk, listdir_cons_ne _ _ (fun hh => hq hh.symm)]

theorem keys_fsErase (fs : FS) (p name : String) :
    (fsErase fs p name).map Prod.fst = fs.map Prod.fst := by
  induction fs with
  | nil => rfl
  | cons e rest ih =>
    obtain ⟨k, d⟩ := e
    by_cases hk : k = p <;> simp [fsErase, hk, ih]

theorem isdir_iff_keys (fs : FS) (p : String) : isdir fs p = true ↔ p ∈ fs.map Prod.fst := by
  induction fs with
  | nil => simp [isdir, dlookup]
  | cons e rest ih =>
    obtain ⟨k, d⟩ := e
    by_cases hk : k = p
    · subst hk
      simp [isdir, dlookup]
    · rw [show isdir ((k, d) :: rest) p = isdir rest p by simp [isdir, dlookup, hk], ih]
      simp [Ne.symm hk]

theorem keys_dirWrite {fs : FS} {p : String} (h : isdir fs p = true) (name : String) (c : Nat) :
    (dirWrite fs p name c).map Prod.fst = fs.map Prod.fst := by
  induction fs with
  | nil => simp [isdir, dlookup] at h
  | cons e rest ih =>
    obtain ⟨k, d⟩ := e
    by_cases hk : k = p
    · subst hk
      simp [dirWrite]
    · rw [show isdir ((k, d) :: rest) p = isdir rest p by simp [isdir, dlookup, hk]] at h
      simp [dirWrite, hk, ih h]

theorem isdir_of_listdir_ne_nil {fs : FS} {p : String} (h : listdir fs p ≠ []) :
    isdir fs p = true := by
  unfold listdir at h
  unfold isdir
  rcases hd : dlookup fs p with _ | d
  · rw [hd] at h
    simp at h
  · simp

/-! ## The per-file loop -/

theorem processLoop_nil (o : Oracle) (dp : String) (fs : FS) (reported : List String) :
    processLoop o dp [] fs reported = (fs, reported) := rfl

theorem processLoop_cons (o : Oracle) (dp img : String) (rest : List String) (fs : FS)
    (reported : List String) :
    processLoop o dp (img :: rest) fs reported =
      if o.fileOk img then
        processLoop o dp rest (dirWrite fs dp (geoName img) (o.prepOut img)) reported
      else processLoop o dp rest fs (reported ++ [img]) := by
  unfold processLoop
  rw [List.foldl_cons]
  by_cases h : o.fileOk img <;> simp [h]

theorem processLoop_notin (o : Oracle) (dp : String) (images : List String) (fs : FS)
    (reported : List String) {g : String} (hg : g ∉ images.map geoName) :
    dirRead (processLoop o dp images fs reported).1 dp g = dirRead fs dp g := by
  induction images generalizing fs reported with
  | nil => rfl
  | cons img rest ih =>
    rw [List.map_cons, List.mem_cons] at hg
    push_neg at hg
    obtain ⟨hg1, hg2⟩ := hg
    rw [processLoop_cons]
    by_cases h : o.fileOk img
    · rw [if_pos h, ih _ _ hg2]
      unfold dirRead
      rw [listdir_dirWrite, if_pos rfl, dlookup_fsWrite_ne _ hg1]
    · rw [if_neg h, ih _ _ hg2]

theorem processLoop_reported (o : Oracle) (dp : String) (images : List String) :
    ∀ (fs : FS) (reported : List String),
      (processLoop o dp images fs reported).2 =
        reported ++ images.filter (fun f => !(o.fileOk f)) := by
  induction images with
  | nil => intro fs reported; simp [processLoop]
  | cons img rest ih =>
    intro fs reported
    rw [processLoop_cons]
    by_cases h : o.fileOk img
    · rw [if_pos h, ih]
      simp [List.filter_cons, h]
    · rw [if_neg h, ih]
      simp [List.filter_cons, h]

theorem processLoop_keys (o : Oracle) (dp : String) (images : List String) :
    ∀ (fs : FS) (reported : List String), isdir fs dp = true →
      (processLoop o dp images fs reported).1.map Prod.fst = fs.map Prod.fst := by
  induction images with
  | nil => intro fs reported _; rfl
  | cons img rest ih =>
    intro fs reported h
    rw [processLoop_cons]
    by_cases hok : o.fileOk img
    · rw [if_pos hok, ih _ _ ?_, keys_dirWrite h]
      rw [isdir_iff_keys, keys_dirWrite h, ← isdir_iff_keys]
      exact h
    · rw [if_neg hok, ih _ _ h]

/-- Claim C3 (confirmed; the collaborators that can raise are modelled
from the spec as atomic succeed-or-raise stages).  For any input list
whose derived-artifact names do not collide, an exception in the
processing stage of one file is caught and recorded (`reported`), the
loop continues with the remaining files, the failed file's artifact is
never created (its artifact path reads exactly as before the loop),
and every successful file's artifact is produced. -/
theorem C3_failure_isolation (o : Oracle) (dir_path : String) (images : List String)
    (fs : FS) (reported : List String) (hnd : (images.map geoName).Nodup) :
    (∀ f ∈ images, dirRead (processLoop o dir_path images fs reported).1 dir_path (geoName f) =
        if o.fileOk f then some (o.prepOut f) else dirRead fs dir_path (geoName f)) ∧
    (processLoop o dir_path images fs reported).2 =
      reported ++ images.filter (fun f => !(o.fileOk f)) := by
  refine ⟨?_, processLoop_reported o dir_path images fs reported⟩
  revert hnd
  induction images generalizing fs reported with
  | nil => intro _ f hf; cases hf
  | cons img rest ih =>
    intro hnd f hf
    rw [List.map_cons, List.nodup_cons] at hnd
    obtain ⟨hnotin, hnd'⟩ := hnd
    rw [processLoop_cons]
    rcases List.mem_cons.mp hf with rfl | hfr
    · by_cases h : o.fileOk f
      · rw [if_pos h, processLoop_notin _ _ _ _ _ hnotin, if_pos h]
        unfold dirRead
        rw [listdir_dirWrite, if_pos rfl, dlookup_fsWrite_self]
      · rw [if_neg h, processLoop_notin _ _ _ _ _ hnotin, if_neg h]
    · have hne : geoName f ≠ geoName img := by
        intro he
        exact hnotin (he ▸ List.mem_map_of_mem geoName hfr)
      by_cases h : o.fileOk img
      · rw [if_pos h, ih _ _ hnd' f hfr]
        by_cases hok : o.fileOk f
        · rw [if_pos hok, if_pos hok]
        · rw [if_neg hok, if_neg hok]
          unfold dirRead
          rw [listdir_dirWrite, if_pos rfl, dlookup_fsWrite_ne _ hne]
      · rw [if_neg h, ih _ _ hnd' f hfr]

/-- Witness for C3: with the oracle that fails `SDRb.png`, the failed
file's artifact is absent after the loop while the hypotheses hold at a
concrete state. -/
theorem C3_failure_isolation_witness :
    ((["SDRa.png", "SDRb.png"].map geoName).Nodup) ∧
    dirRead (processLoop oHalf "/d" ["SDRa.png", "SDRb.png"] stA.fs stA.reported).1 "/d"
        (geoName "SDRb.png") =
      (if oHalf.fileOk "SDRb.png" then some (oHalf.prepOut "SDRb.png")
       else dirRead stA.fs "/d" (geoName "SDRb.png")) :=
  ⟨by decide, (C3_failure_isolation oHalf "/d" ["SDRa.png", "SDRb.png"] stA.fs stA.reported
      (by decide)).1 "SDRb.png" (by decide)⟩

/-! ## Reduction equations for `process` and `update` -/

theorem process_nil_eq (o : Oracle) (σ : ServerState) (dp tms : String) :
    process o σ dp tms [] = Except.ok (save_conf σ) := rfl

theorem process_one_some (o : Oracle) (σ : ServerState) (dp tms : String) (a : String) (c : Nat)
    (h : dirRead (processLoop o dp [a] σ.fs σ.reported).1 dp (geoName a) = some c) :
    process o σ dp tms [a] = Except.ok (save_conf { σ with
      fs := dirWrite (processLoop o dp [a] σ.fs σ.reported).1 dp "merged.tif" (o.setNodata c),
      reported := (processLoop o dp [a] σ.fs σ.reported).2,
      tiled := (dp ++ "/merged.tif", tms) :: σ.tiled }) := by
  simp only [process]
  rw [h]

theorem process_one_none (o : Oracle) (σ : ServerState) (dp tms : String) (a : String)
    (h : dirRead (processLoop o dp [a] σ.fs σ.reported).1 dp (geoName a) = none) :
    process o σ dp tms [a] = Except.error ("copyfile", { σ with
      fs := (processLoop o dp [a] σ.fs σ.reported).1,
      reported := (processLoop o dp [a] σ.fs σ.reported).2 }) := by
  simp only [process]
  rw [h]

theorem process_two_ok (o : Oracle) (σ : ServerState) (dp tms : String) (a b : String)
    (tl : List String) (hm : o.mergeOk = true) :
    process o σ dp tms (a :: b :: tl) = Except.ok (save_conf { σ with
      fs := dirWrite (processLoop o dp (a :: b :: tl) σ.fs σ.reported).1 dp "merged.tif" o.mergeOut,
      reported := (processLoop o dp (a :: b :: tl) σ.fs σ.reported).2,
      merges := ((a :: b :: tl).map (fun f => dp ++ "/" ++ geoName f)) :: σ.merges,
      tiled := (dp ++ "/merged.tif", tms) :: σ.tiled }) := by
  simp only [process, hm]
  simp

theorem process_two_fail (o : Oracle) (σ : ServerState) (dp tms : String) (a b : String)
    (tl : List String) (hm : o.mergeOk = false) :
    process o σ dp tms (a :: b :: tl) = Except.error ("merge", { σ with
      fs := (processLoop o dp (a :: b :: tl) σ.fs σ.reported).1,
      reported := (processLoop o dp (a :: b :: tl) σ.fs σ.reported).2,
      merges := ((a :: b :: tl).map (fun f => dp ++ "/" ++ geoName f)) :: σ.merges }) := by
  simp only [process, hm]
  simp

theorem update_eq (o : Oracle) (σ : ServerState) :
    update o σ =
      if (!(isdir σ.fs (imgDir σ.start_date σ.rate)) ||
          (listdir σ.fs (imgDir σ.start_date σ.rate)).isEmpty) = true then
        Except.ok { σ with start_date := σ.start_date + σ.rate }
      else
        match process o σ (imgDir σ.start_date σ.rate) (tmsDir σ.start_date σ.rate)
            ((listdir σ.fs (imgDir σ.start_date σ.rate)).map Prod.fst) with
        | Except.error e => Except.error e
        | Except.ok σ1 =>
          match move_unprocessed_files { σ1 with start_date := σ1.start_date + σ1.rate }
              (imgDir σ.start_date σ.rate)
              ((listdir σ.fs (imgDir σ.start_date σ.rate)).map Prod.fst) with
          | Except.error e => Except.error e
          | Except.ok σ3 =>
            Except.ok { σ3 with
              conf := { counter := σ3.conf.counter + 1, entries := (σ3.conf.counter, get_interval σ.start_date σ.rate) :: σ3.conf.entries } } := rfl

/-! ## Dissecting `process` -/

theorem process_meta (o : Oracle) (σ : ServerState) (dp tms : String) (images : List String) :
    (∀ σ', process o σ dp tms images = Except.ok σ' →
      σ'.start_date = σ.start_date ∧ σ'.rate = σ.rate ∧ σ'.conf = σ.conf ∧ σ'.saved = σ.conf ∧
      (isdir σ.fs dp = true → σ'.fs.map Prod.fst = σ.fs.map Prod.fst)) ∧
    (∀ e, process o σ dp tms images = Except.error e →
      (e.1 = "merge" ∨ e.1 = "copyfile") ∧ e.2.start_date = σ.start_date ∧ e.2.rate = σ.rate ∧
      e.2.conf = σ.conf ∧ e.2.saved = σ.saved ∧
      (isdir σ.fs dp = true → e.2.fs.map Prod.fst = σ.fs.map Prod.fst)) := by
  have hloopdir : ∀ h : isdir σ.fs dp = true,
      isdir (processLoop o dp images σ.fs σ.reported).1 dp = true := by
    intro h
    rw [isdir_iff_keys, processLoop_keys o dp images σ.fs σ.reported h, ← isdir_iff_keys]
    exact h
  constructor
  · intro σ' h
    rcases images with _ | ⟨a, _ | ⟨b, tl⟩⟩
    · rw [process_nil_eq] at h
      simp only [Except.ok.injEq] at h
      subst h
      exact ⟨rfl, rfl, rfl, rfl, fun _ => rfl⟩
    · rcases hd : dirRead (processLoop o dp [a] σ.fs σ.reported).1 dp (geoName a) with _ | c
      · rw [process_one_none o σ dp tms a hd] at h
        exact absurd h (by simp)
      · rw [process_one_some o σ dp tms a c hd] at h
        simp only [Except.ok.injEq] at h
        subst h
        refine ⟨rfl, rfl, rfl, rfl, fun hdir => ?_⟩
        show (dirWrite (processLoop o dp [a] σ.fs σ.reported).1 dp "merged.tif"
          (o.setNodata c)).map Prod.fst = σ.fs.map Prod.fst
        rw [keys_dirWrite (hloopdir hdir), processLoop_keys o dp [a] σ.fs σ.reported hdir]
    · by_cases hm : o.mergeOk = true
      · rw [process_two_ok o σ dp tms a b tl hm] at h
        simp only [Except.ok.injEq] at h
        subst h
        refine ⟨rfl, rfl, rfl, rfl, fun hdir => ?_⟩
        show (dirWrite (processLoop o dp (a :: b :: tl) σ.fs σ.reported).1 dp "merged.tif"
          o.mergeOut).map Prod.fst = σ.fs.map Prod.fst
        rw [keys_dirWrite (hloopdir hdir),
          processLoop_keys o dp (a :: b :: tl) σ.fs σ.reported hdir]
      · rw [process_two_fail o σ dp tms a b tl (by simpa using hm)] at h
        exact absurd h (by simp)
  · intro e h
    rcases images with _ | ⟨a, _ | ⟨b, tl⟩⟩
    · rw [process_nil_eq] at h
      exact absurd h (by simp)
    · rcases hd : dirRead (processLoop o dp [a] σ.fs σ.reported).1 dp (geoName a) with _ | c
      · rw [process_one_none o σ dp tms a hd] at h
        simp only [Except.error.injEq] at h
        subst h
        exact ⟨Or.inr rfl, rfl, rfl, rfl, rfl,
          fun hdir => processLoop_keys o dp [a] σ.fs σ.reported hdir⟩
      · rw [process_one_some o σ dp tms a c hd] at h
        exact absurd h (by simp)
    · by_cases hm : o.mergeOk = true
      · rw [process_two_ok o σ dp tms a b tl hm] at h
        exact absurd h (by simp)
      · rw [process_two_fail o σ dp tms a b tl (by simpa using hm)] at h
        simp only [Except.error.injEq] at h
        subst h
        exact ⟨Or.inl rfl, rfl, rfl, rfl, rfl,
          fun hdir => processLoop_keys o dp (a :: b :: tl) σ.fs σ.reported hdir⟩

/-! ## Dissecting `move_unprocessed_files` -/

theorem moveAll_cons (dp nd : String) (e : String × Nat) (rest : Dir) (fs : FS) :
    moveAll dp nd (e :: rest) fs = moveAll dp nd rest (dirWrite (fsErase fs dp e.1) nd e.1 e.2) :=
  rfl

theorem moveAll_keys (dp nd : String) (ls : Dir) :
    ∀ fs : FS, isdir fs dp = true → isdir fs nd = true →
      (moveAll dp nd ls fs).map Prod.fst = fs.map Prod.fst := by
  induction ls with
  | nil => intro fs _ _; rfl
  | cons e rest ih =>
    intro fs hdp hnd
    rw [moveAll_cons]
    have hnd1 : isdir (fsErase fs dp e.1) nd = true := by
      rw [isdir_iff_keys, keys_fsErase, ← isdir_iff_keys]
      exact hnd
    have hk1 : (dirWrite (fsErase fs dp e.1) nd e.1 e.2).map Prod.fst = fs.map Prod.fst := by
      rw [keys_dirWrite hnd1, keys_fsErase]
    have hdp2 : isdir (dirWrite (fsErase fs dp e.1) nd e.1 e.2) dp = true := by
      rw [isdir_iff_keys, hk1, ← isdir_iff_keys]
      exact hdp
    have hnd2 : isdir (dirWrite (fsErase fs dp e.1) nd e.1 e.2) nd = true := by
      rw [isdir_iff_keys, hk1, ← isdir_iff_keys]
      exact hnd
    rw [ih _ hdp2 hnd2, hk1]

theorem move_meta (σ : ServerState) (dir_path : String) (images : List String) :
    (∀ σ', move_unprocessed_files σ dir_path images = Except.ok σ' →
      σ'.start_date = σ.start_date ∧ σ'.rate = σ.rate ∧ σ'.conf = σ.conf ∧ σ'.saved = σ.saved ∧
      (σ'.fs.map Prod.fst = σ.fs.map Prod.fst ∨
        σ'.fs.map Prod.fst = imgDir σ.start_date σ.rate :: σ.fs.map Prod.fst)) ∧
    (∀ e, move_unprocessed_files σ dir_path images = Except.error e → e = ("mkdir", σ)) := by
  constructor
  · intro σ' h
    unfold move_unprocessed_files at h
    by_cases hemp : ((listdir σ.fs dir_path).filter (stragglerP images)).isEmpty = true
    · rw [if_pos hemp] at h
      simp only [Except.ok.injEq] at h
      subst h
      exact ⟨rfl, rfl, rfl, rfl, Or.inl rfl⟩
    · rw [if_neg hemp] at h
      by_cases hdir : isdir σ.fs (imgDir σ.start_date σ.rate) = true
      · rw [if_pos hdir] at h
        simp at h
      · rw [if_neg hdir] at h
        simp only [Except.ok.injEq] at h
        subst h
        refine ⟨rfl, rfl, rfl, rfl, Or.inr ?_⟩
        have hne : listdir σ.fs dir_path ≠ [] := by
          intro hl
          rw [hl] at hemp
          simp at hemp
        have hdp : isdir σ.fs dir_path = true := isdir_of_listdir_ne_nil hne
        have hdp' : isdir (mkdirFS σ.fs (imgDir σ.start_date σ.rate)) dir_path = true := by
          rw [isdir_iff_keys, keys_mkdirFS]
          exact List.mem_cons_of_mem _ ((isdir_iff_keys _ _).mp hdp)
        show (moveAll dir_path (imgDir σ.start_date σ.rate)
            ((listdir σ.fs dir_path).filter (stragglerP images))
            (mkdirFS σ.fs (imgDir σ.start_date σ.rate))).map Prod.fst =
          imgDir σ.start_date σ.rate :: σ.fs.map Prod.fst
        rw [moveAll_keys _ _ _ _ hdp' (isdir_mkdirFS_self _ _), keys_mkdirFS]
  · intro e h
    unfold move_unprocessed_files at h
    by_cases hemp : ((listdir σ.fs dir_path).filter (stragglerP images)).isEmpty = true
    · rw [if_pos hemp] at h
      simp at h
    · rw [if_neg hemp] at h
      by_cases hdir : isdir σ.fs (imgDir σ.start_date σ.rate) = true
      · rw [if_pos hdir] at h
        simp only [Except.error.injEq] at h
        exact h.symm
      · rw [if_neg hdir] at h
        simp at h

/-! ## Dissecting `update` -/

theorem update_dissect (o : Oracle) (σ : ServerState) :
    (update o σ = Except.ok { σ with start_date := σ.start_date + σ.rate } ∧
      (!(isdir σ.fs (imgDir σ.start_date σ.rate)) ||
        (listdir σ.fs (imgDir σ.start_date σ.rate)).isEmpty) = true) ∨
    (∃ e, update o σ = Except.error e ∧ (e.1 = "merge" ∨ e.1 = "copyfile") ∧
      e.2.start_date = σ.start_date ∧ e.2.fs.map Prod.fst = σ.fs.map Prod.fst) ∨
    (∃ σ2, update o σ = Except.error ("mkdir", σ2) ∧
      σ2.start_date = σ.start_date + σ.rate ∧ σ2.fs.map Prod.fst = σ.fs.map Prod.fst) ∨
    (∃ σ', update o σ = Except.ok σ' ∧ σ'.start_date = σ.start_date + σ.rate ∧
      σ'.conf.counter = σ.conf.counter + 1 ∧
      σ'.conf.entries = (σ.conf.counter, get_interval σ.start_date σ.rate) :: σ.conf.entries ∧
      σ'.saved = σ.conf ∧
      (σ'.fs.map Prod.fst = σ.fs.map Prod.fst ∨
        σ'.fs.map Prod.fst = imgDir (σ.start_date + σ.rate) σ.rate :: σ.fs.map Prod.fst) ∧
      (!(isdir σ.fs (imgDir σ.start_date σ.rate)) ||
        (listdir σ.fs (imgDir σ.start_date σ.rate)).isEmpty) = false) := by
  by_cases hc : (!(isdir σ.fs (imgDir σ.start_date σ.rate)) ||
      (listdir σ.fs (imgDir σ.start_date σ.rate)).isEmpty) = true
  · exact Or.inl ⟨by rw [update_eq, if_pos hc], hc⟩
  · have hdir : isdir σ.fs (imgDir σ.start_date σ.rate) = true := by
      rcases hx : isdir σ.fs (imgDir σ.start_date σ.rate) with _ | _
      · rw [hx] at hc
        simp at hc
      · rfl
    rcases hp : process o σ (imgDir σ.start_date σ.rate) (tmsDir σ.start_date σ.rate)
        ((listdir σ.fs (imgDir σ.start_date σ.rate)).map Prod.fst) with e | σ1
    · refine Or.inr (Or.inl ⟨e, ?_, ?_⟩)
      · rw [update_eq, if_neg hc, hp]
      · obtain ⟨htag, hsd, _, _, _, hkeys⟩ := (process_meta o σ _ _ _).2 e hp
        exact ⟨htag, hsd, hkeys hdir⟩
    · obtain ⟨hsd1, hr1, hc1, hsv1, hkeys1⟩ := (process_meta o σ _ _ _).1 σ1 hp
      rcases hm : move_unprocessed_files { σ1 with start_date := σ1.start_date + σ1.rate }
          (imgDir σ.start_date σ.rate)
          ((listdir σ.fs (imgDir σ.start_date σ.rate)).map Prod.fst) with e | σ3
      · have he := (move_meta _ _ _).2 e hm
        subst he
        refine Or.inr (Or.inr (Or.inl
          ⟨{ σ1 with start_date := σ1.start_date + σ1.rate }, ?_, ?_, ?_⟩))
        · rw [update_eq, if_neg hc, hp]
          dsimp only
          rw [hm]
        · show ({ σ1 with start_date := σ1.start_date + σ1.rate } : ServerState).start_date =
            σ.start_date + σ.rate
          dsimp only
          rw [hsd1, hr1]
        · show ({ σ1 with start_date := σ1.start_date + σ1.rate } : ServerState).fs.map Prod.fst =
            σ.fs.map Prod.fst
          dsimp only
          exact hkeys1 hdir
      · obtain ⟨hsd3, hr3, hc3, hsv3, hkeys3⟩ := (move_meta _ _ _).1 σ3 hm
        dsimp only at hsd3 hr3 hc3 hsv3 hkeys3
        refine Or.inr (Or.inr (Or.inr
          ⟨{ σ3 with conf := { counter := σ3.conf.counter + 1, entries := (σ3.conf.counter, get_interval σ.start_date σ.rate) :: σ3.conf.entries } },
            ?_, ?_, ?_, ?_, ?_, ?_, by simpa using hc⟩))
        · rw [update_eq, if_neg hc, hp]
          dsimp only
          rw [hm]
        · dsimp only
          rw [hsd3, hsd1, hr1]
        · dsimp only
          rw [hc3, hc1]
        · dsimp only
          rw [hc3, hc1]
        · dsimp only
          rw [hsv3, hsv1]
        · dsimp only
          rcases hkeys3 with hk | hk
          · exact Or.inl (by rw [hk]; exact hkeys1 hdir)
          · refine Or.inr ?_
            rw [hk, hsd1, hr1]
            congr 1
            exact hkeys1 hdir

/-! ## Claim C2 -/

/-- C2, counterexample.  The claim asserts the cursor advances by one
width on every tick regardless of outcome, even when the pipeline fails
outright.  At a state with two captures and a raising `merge`, the tick
raises and the cursor is still `0`, not `0 + 60`: a merge failure does
prevent the cursor advance. -/
theorem C2_counterexample :
    excInfo (update oMergeFail stB) = some ("merge", 0) ∧
    stB.start_date = 0 ∧ stB.rate = 60 := by decide

/-- C2, amended.  The cursor advances by exactly one width on every
tick that does not raise, and on a tick that raises inside the
reconciliation step (`"mkdir"`), since the advance precedes it; but a
tick that raises inside `process` (`"merge"`/`"copyfile"`) leaves the
cursor unchanged, so that window is retried on the next tick. -/
theorem C2_cursor_advance (o : Oracle) (σ : ServerState) : cursorFact o σ := by
  unfold cursorFact
  rcases update_dissect o σ with ⟨heq, _⟩ | ⟨e, heq, htag, hsd, _⟩ |
    ⟨σ2, heq, hsd, _⟩ | ⟨σ', heq, hsd, _⟩
  · rw [heq]
  · obtain ⟨e1, e2⟩ := e
    rw [heq]
    exact Or.inr ⟨htag, hsd⟩
  · rw [heq]
    exact Or.inl ⟨rfl, hsd⟩
  · rw [heq]
    exact hsd

/-! ## Claim C1 -/

/-- C1, counterexample.  The claim asserts the merge/copy branch is
chosen by the number of files whose processing *succeeded*.  With two
input files of which exactly one processes successfully, the code still
invokes `merge` on both artifact paths and stores the merge output
(`99`), instead of copying the single successful artifact (whose
normalized content would be `5`). -/
theorem C1_counterexample :
    (["SDRa.png", "SDRb.png"].filter oHalf.fileOk).length = 1 ∧
    (process oHalf stA "/d" "/t" ["SDRa.png", "SDRb.png"]).toOption.map
        (fun s => (dirRead s.fs "/d" "merged.tif", s.merges)) =
      some (some oHalf.mergeOut, [["/d/SDRa_geo.tif", "/d/SDRb_geo.tif"]]) ∧
    oHalf.mergeOut ≠ oHalf.setNodata (oHalf.prepOut "SDRa.png") := by decide

/-- C1, amended.  The branch in `process` is on the number of *input*
files (`len(georeferenced) = len(images)`), not the number of
successfully processed ones: two or more inputs always go to `merge`
(invoked on every input's artifact path), exactly one input goes to the
copy-and-normalize path (raising if its artifact is missing), and only
an empty input list produces no merged output and no tiling. -/
theorem C1_merge_branches (o : Oracle) (σ : ServerState) (dp tms : String)
    (images : List String) : mergeFact o σ dp tms images := by
  unfold mergeFact
  rcases images with _ | ⟨a, _ | ⟨b, tl⟩⟩
  · rw [process_nil_eq]
    exact ⟨fun h => by simp at h, fun a ha => by simp at ha, fun _ => ⟨rfl, rfl, rfl⟩⟩
  · rcases hd : dirRead (processLoop o dp [a] σ.fs σ.reported).1 dp (geoName a) with _ | c
    · rw [process_one_none o σ dp tms a hd]
      refine ⟨Or.inr rfl, fun h => by simp at h, fun _ => ⟨a, rfl, hd⟩⟩
    · rw [process_one_some o σ dp tms a c hd]
      refine ⟨fun h => by simp at h, fun a' ha' => ?_, fun h => by simp at h⟩
      have : a = a' := by
        simpa using ha'
      subst this
      refine ⟨rfl, ⟨c, hd, ?_⟩, rfl⟩
      show dirRead (dirWrite (processLoop o dp [a] σ.fs σ.reported).1 dp "merged.tif"
        (o.setNodata c)) dp "merged.tif" = some (o.setNodata c)
      unfold dirRead
      rw [listdir_dirWrite, if_pos rfl, dlookup_fsWrite_self]
  · by_cases hmk : o.mergeOk = true
    · rw [process_two_ok o σ dp tms a b tl hmk]
      refine ⟨fun _ => ⟨rfl, ?_, rfl⟩, fun a' ha' => by simp at ha', fun h => by simp at h⟩
      show dirRead (dirWrite (processLoop o dp (a :: b :: tl) σ.fs σ.reported).1 dp "merged.tif"
        o.mergeOut) dp "merged.tif" = some o.mergeOut
      unfold dirRead
      rw [listdir_dirWrite, if_pos rfl, dlookup_fsWrite_self]
    · rw [process_two_fail o σ dp tms a b tl (by simpa using hmk)]
      refine ⟨Or.inl rfl, fun _ => ⟨?_, by simpa using hmk, rfl, rfl⟩, fun h => by simp at h⟩
      simp only [List.length_cons]
      omega

/-! ## Claim C5 -/

/-- C5, counterexample.  The claim asserts relocation succeeds without
raising even when the next window's directory already exists.  At a
state with one straggler and the next window's directory already
present, `os.mkdir` is reached unconditionally and raises
`FileExistsError`; no file is moved. -/
theorem C5_counterexample :
    move_unprocessed_files stF "/old" [] = Except.error ("mkdir", stF) ∧
    ((listdir stF.fs "/old").filter (stragglerP [])).isEmpty = false ∧
    isdir stF.fs (imgDir stF.start_date stF.rate) = true :=
  ⟨rfl, by decide, by decide⟩

/-- C5, amended.  With no stragglers the reconciliation step does
nothing at all (no directory creation, state unchanged).  With
stragglers it runs `os.mkdir` unconditionally: if the next window's
directory does not yet exist it is created (exactly it) and relocation
proceeds; if it already exists, the step raises and moves nothing. -/
theorem C5_mkdir_behavior (σ : ServerState) (dir_path : String) (images : List String) :
    moveFact σ dir_path images := by
  unfold moveFact
  by_cases hemp : ((listdir σ.fs dir_path).filter (stragglerP images)).isEmpty = true
  · rw [if_pos hemp]
    unfold move_unprocessed_files
    rw [if_pos hemp]
  · rw [if_neg hemp]
    by_cases hdir : isdir σ.fs (imgDir σ.start_date σ.rate) = true
    · rw [if_pos hdir]
      unfold move_unprocessed_files
      rw [if_neg hemp, if_pos hdir]
    · rw [if_neg hdir]
      refine ⟨{ σ with fs := (moveAll dir_path (imgDir σ.start_date σ.rate) ((listdir σ.fs dir_path).filter (stragglerP images)) (mkdirFS σ.fs (imgDir σ.start_date σ.rate))) }, ?_, ?_⟩
      · unfold move_unprocessed_files
        rw [if_neg hemp, if_neg hdir]
      · have hne : listdir σ.fs dir_path ≠ [] := by
          intro hl
          rw [hl] at hemp
          simp at hemp
        have hdp : isdir σ.fs dir_path = true := isdir_of_listdir_ne_nil hne
        have hdp' : isdir (mkdirFS σ.fs (imgDir σ.start_date σ.rate)) dir_path = true := by
          rw [isdir_iff_keys, keys_mkdirFS]
          exact List.mem_cons_of_mem _ ((isdir_iff_keys _ _).mp hdp)
        show (moveAll dir_path (imgDir σ.start_date σ.rate)
            ((listdir σ.fs dir_path).filter (stragglerP images))
            (mkdirFS σ.fs (imgDir σ.start_date σ.rate))).map Prod.fst =
          imgDir σ.start_date σ.rate :: σ.fs.map Prod.fst
        rw [moveAll_keys _ _ _ _ hdp' (isdir_mkdirFS_self _ _), keys_mkdirFS]

/-! ## Claim C6 -/

/-- C6, counterexample.  The claim asserts the configuration including
the new counter-to-label entry is persisted as part of the successful
run.  On a clean tick over a one-capture window, the in-memory
configuration ends with counter `1` and one entry, but the
configuration persisted during that run (`save_conf` runs inside
`process`, before the append in `update`) still has counter `0` and no
entries. -/
theorem C6_counterexample :
    (update oAllOk stC).toOption.map
        (fun s => (s.conf.counter, s.conf.entries.length, s.saved.counter,
          s.saved.entries.length)) =
      some (1, 1, 0, 0) := by decide

/-- C6, amended.  On every tick over a non-empty window that completes
without raising, the counter increases by exactly one and exactly one
entry mapping the pre-increment counter to the window's label is
prepended; but the configuration persisted during that run is the one
from *before* the append (`save_conf` is called inside `process`), so
the new entry and counter value reach durable storage only through a
later run or the shutdown hook. -/
theorem C6_counter_persistence (o : Oracle) (σ : ServerState)
    (h1 : isdir σ.fs (imgDir σ.start_date σ.rate) = true)
    (h2 : (listdir σ.fs (imgDir σ.start_date σ.rate)).isEmpty = false) :
    confFact o σ := by
  unfold confFact
  rcases update_dissect o σ with ⟨heq, hcond⟩ | ⟨e, heq, _⟩ |
    ⟨σ2, heq, _⟩ | ⟨σ', heq, hsd, hcnt, hent, hsv, _⟩
  · rw [h1, h2] at hcond
    simp at hcond
  · obtain ⟨e1, e2⟩ := e
    rw [heq]
    trivial
  · rw [heq]
    trivial
  · rw [heq]
    refine ⟨hcnt, hent, hsv, ?_⟩
    rw [hent, hsv]
    simp

/-- Witness for C6: the hypotheses hold at the concrete one-capture
state and the conclusion follows from `C6_counter_persistence`. -/
theorem C6_counter_persistence_witness :
    isdir stC.fs (imgDir stC.start_date stC.rate) = true ∧
    (listdir stC.fs (imgDir stC.start_date stC.rate)).isEmpty = false ∧
    confFact oAllOk stC :=
  ⟨by decide, by decide, C6_counter_persistence oAllOk stC (by decide) (by decide)⟩

/-! ## Claim C7 -/

/-- C7, counterexample.  The claim asserts an upload request carrying no
file matching the capture pattern does not create the current window's
directory.  A POST whose only file is named `"bad"` (no match) still
creates the directory: `os.mkdir` runs before the pattern check. -/
theorem C7_counterexample :
    PATTERN_match "bad" = false ∧
    isdir st0.fs (imgDir st0.start_date st0.rate) = false ∧
    isdir (upload_page st0 "NOAA" [("bad", 0)]).fs (imgDir st0.start_date st0.rate) = true := by
  decide

theorem upload_fold_keys (sat_type dp : String) (files : List (String × Nat)) :
    ∀ fs : FS, isdir fs dp = true →
      (files.foldl (fun fs f =>
        if PATTERN_match f.1 then dirWrite fs dp (sat_type ++ "_" ++ f.1) f.2 else fs)
        fs).map Prod.fst = fs.map Prod.fst := by
  induction files with
  | nil => intro fs _; rfl
  | cons f rest ih =>
    intro fs h
    rw [List.foldl_cons]
    by_cases hp : PATTERN_match f.1 = true
    · rw [if_pos hp, ih _ ?_, keys_dirWrite h]
      rw [isdir_iff_keys, keys_dirWrite h, ← isdir_iff_keys]
      exact h
    · rw [if_neg hp, ih _ h]

/-- C7, amended.  Window directories are created in exactly two places:
every POST to `upload_page` creates the current window's directory when
absent, whether or not any file matches the pattern; and a tick creates
at most the next window's directory (when relocating stragglers), a
raising tick creating none.  Hence a directory's existence signals that
an upload targeted it or stragglers were carried into it — not that any
file was ingested. -/
theorem C7_dir_creation (o : Oracle) (σ : ServerState) (sat_type : String)
    (files : List (String × Nat)) : dirCreationFact o σ sat_type files := by
  unfold dirCreationFact
  constructor
  · unfold upload_page
    dsimp only
    by_cases hdir : isdir σ.fs (imgDir σ.start_date σ.rate) = true
    · rw [if_pos hdir, if_pos hdir]
      exact upload_fold_keys sat_type _ files σ.fs hdir
    · rw [if_neg hdir, if_neg hdir]
      rw [upload_fold_keys sat_type _ files _ (isdir_mkdirFS_self _ _), keys_mkdirFS]
  · rcases update_dissect o σ with ⟨heq, _⟩ | ⟨e, heq, _, _, hkeys⟩ |
      ⟨σ2, heq, _, hkeys⟩ | ⟨σ', heq, _, _, _, _, hkeys, _⟩
    · rw [heq]
      exact Or.inl rfl
    · obtain ⟨e1, e2⟩ := e
      rw [heq]
      exact hkeys
    · rw [heq]
      exact hkeys
    · rw [heq]
      exact hkeys

/-! ## Claim C8 -/

theorem listdir_eq_nil_of_not_isdir {fs : FS} {p : String} (h : isdir fs p = false) :
    listdir fs p = [] := by
  unfold isdir at h
  unfold listdir
  rcases hd : dlookup fs p with _ | d
  · rfl
  · rw [hd] at h
    simp at h

/-- Claim C8 (confirmed).  For a POST carrying one file: if the filename
matches `PATTERN`, the content is stored in the current window's
directory under `sat_type + "_" + filename`, overwriting any existing
file of that exact name (last-write-wins, visible in the `fsWrite`
semantics and in the second equation); if it does not match, the
directory's contents are unchanged — the file is dropped with no error
(`upload_page` is a total function). -/
theorem C8_upload_semantics (σ : ServerState) (sat_type name : String) (c : Nat) :
    listdir (upload_page σ sat_type [(name, c)]).fs (imgDir σ.start_date σ.rate) =
      (if PATTERN_match name then
        fsWrite (listdir σ.fs (imgDir σ.start_date σ.rate)) (sat_type ++ "_" ++ name) c
      else listdir σ.fs (imgDir σ.start_date σ.rate)) ∧
    dirRead (upload_page σ sat_type [(name, c)]).fs (imgDir σ.start_date σ.rate)
        (sat_type ++ "_" ++ name) =
      (if PATTERN_match name then some c
       else dirRead σ.fs (imgDir σ.start_date σ.rate) (sat_type ++ "_" ++ name)) := by
  have hld : listdir (if isdir σ.fs (imgDir σ.start_date σ.rate) then σ.fs
      else mkdirFS σ.fs (imgDir σ.start_date σ.rate)) (imgDir σ.start_date σ.rate) =
      listdir σ.fs (imgDir σ.start_date σ.rate) := by
    by_cases hdir : isdir σ.fs (imgDir σ.start_date σ.rate) = true
    · rw [if_pos hdir]
    · rw [if_neg hdir, listdir_mkdirFS_self,
        listdir_eq_nil_of_not_isdir (by simpa using hdir)]
  unfold upload_page
  dsimp only
  rw [List.foldl_cons, List.foldl_nil]
  by_cases hp : PATTERN_match name = true
  · rw [if_pos hp, if_pos hp, if_pos hp]
    constructor
    · rw [listdir_dirWrite, if_pos rfl, hld]
    · unfold dirRead
      rw [listdir_dirWrite, if_pos rfl, hld, dlookup_fsWrite_self]
  · rw [if_neg hp, if_neg hp, if_neg hp]
    exact ⟨hld, by unfold dirRead; rw [hld]⟩

/-! ## Claim C10 -/

/-- Claim C10 (confirmed).  The character before `png` in `PATTERN` is
an unescaped `.` acting as a wildcard, so the filename
`SDRSharp_20190601_120000Z_137100000Hz_IQXpng` — which does not end in
`.png` — is accepted and stored by the upload handler rather than
dropped. -/
theorem C10_wildcard_dot :
    PATTERN_match "SDRSharp_20190601_120000Z_137100000Hz_IQXpng" = true ∧
    "SDRSharp_20190601_120000Z_137100000Hz_IQXpng".data.drop
        ("SDRSharp_20190601_120000Z_137100000Hz_IQXpng".data.length - 4) ≠
      '.' :: 'p' :: 'n' :: 'g' :: [] ∧
    dirRead (upload_page st0 "NOAA"
        [("SDRSharp_20190601_120000Z_137100000Hz_IQXpng", 7)]).fs
        (imgDir st0.start_date st0.rate)
        ("NOAA_" ++ "SDRSharp_20190601_120000Z_137100000Hz_IQXpng") = some 7 := by
  decide

/-! ## Claim C4 -/

theorem dlookup_append_of_none {d1 : Dir} {n : String} (h : dlookup d1 n = none) (d2 : Dir) :
    dlookup (d1 ++ d2) n = dlookup d2 n := by
  induction d1 with
  | nil => rfl
  | cons e rest ih =>
    obtain ⟨k, v⟩ := e
    by_cases hk : k = n
    · simp [dlookup, hk] at h
    · simp only [List.cons_append, dlookup, if_neg hk] at h ⊢
      exact ih h

theorem fsWrite_append {d : Dir} {n : String} (h : dlookup d n = none) (c : Nat) :
    fsWrite d n c = d ++ [(n, c)] := by
  induction d with
  | nil => rfl
  | cons e rest ih =>
    obtain ⟨k, v⟩ := e
    by_cases hk : k = n
    · simp [dlookup, hk] at h
    · simp only [dlookup, if_neg hk] at h
      simp only [fsWrite, if_neg hk, List.cons_append]
      rw [ih h]

theorem foldl_fsWrite_fresh : ∀ (ls d : Dir),
    (∀ n ∈ ls.map Prod.fst, dlookup d n = none) → (ls.map Prod.fst).Nodup →
    ls.foldl (fun acc e => fsWrite acc e.1 e.2) d = d ++ ls := by
  intro ls
  induction ls with
  | nil => intro d _ _; simp
  | cons e rest ih =>
    obtain ⟨n0, c0⟩ := e
    intro d hfresh hnd
    rw [List.map_cons, List.nodup_cons] at hnd
    rw [List.foldl_cons]
    show rest.foldl (fun acc e => fsWrite acc e.1 e.2) (fsWrite d n0 c0) = d ++ (n0, c0) :: rest
    rw [fsWrite_append (hfresh n0 (by simp)) c0, ih _ ?_ hnd.2]
    · simp
    · intro n hn
      rw [dlookup_append_of_none (hfresh n (by simp [hn]))]
      have hne : n ≠ n0 := by
        intro hh
        exact hnd.1 (hh ▸ hn)
      simp [dlookup, Ne.symm hne]

theorem moveAll_listdir_nd {dp nd : String} (hne : nd ≠ dp) (ls : Dir) :
    ∀ fs : FS, listdir (moveAll dp nd ls fs) nd =
      ls.foldl (fun acc e => fsWrite acc e.1 e.2) (listdir fs nd) := by
  induction ls with
  | nil => intro fs; rfl
  | cons e rest ih =>
    intro fs
    rw [moveAll_cons, ih, List.foldl_cons]
    congr 1
    rw [listdir_dirWrite, if_pos rfl, listdir_fsErase, if_neg hne]

theorem moveAll_listdir_dp {dp nd : String} (hne : nd ≠ dp) (ls : Dir) :
    ∀ fs : FS, listdir (moveAll dp nd ls fs) dp =
      (listdir fs dp).filter (fun x => !((ls.map Prod.fst).contains x.1)) := by
  induction ls with
  | nil =>
    intro fs
    exact (List.filter_eq_self.mpr (fun a _ => rfl)).symm
  | cons e rest ih =>
    intro fs
    rw [moveAll_cons, ih, listdir_dirWrite, if_neg (fun hh => hne hh.symm),
      listdir_fsErase, if_pos rfl, List.filter_filter]
    apply List.filter_congr
    intro x _
    simp [List.contains_cons, Bool.not_or, Bool.and_comm]

theorem keys_nodup_eq {l : Dir} (h : (l.map Prod.fst).Nodup) :
    ∀ x ∈ l, ∀ y ∈ l, x.1 = y.1 → x = y := by
  induction l with
  | nil => intro x hx; cases hx
  | cons a rest ih =>
    rw [List.map_cons, List.nodup_cons] at h
    intro x hx y hy hxy
    rcases List.mem_cons.mp hx with rfl | hx'
    · rcases List.mem_cons.mp hy with rfl | hy'
      · rfl
      · have hm : y.1 ∈ rest.map Prod.fst := List.mem_map_of_mem _ hy'
        rw [← hxy] at hm
        exact absurd hm h.1
    · rcases List.mem_cons.mp hy with rfl | hy'
      · have hm : x.1 ∈ rest.map Prod.fst := List.mem_map_of_mem _ hx'
        rw [hxy] at hm
        exact absurd hm h.1
      · exact ih h.2 x hx' y hy' hxy

/-- Claim C4 (confirmed, under two preconditions: the directory listing
is well formed — no duplicate filenames — and the next window's
directory does not pre-exist; that directory's possible pre-existence
is exactly the defect treated in C5).  The reconciliation step computes
exactly the set of files in the directory that are neither in the
snapshot `images`, nor the derived-artifact name of a snapshot file,
nor the merged output `merged.tif` (the test `stragglerP`); afterwards
the next window's directory holds exactly those stragglers (none is
discarded) and the old directory retains exactly the non-stragglers
(moved, not copied). -/
theorem C4_straggler_set (σ : ServerState) (dir_path : String) (images : List String)
    (hwf : ((listdir σ.fs dir_path).map Prod.fst).Nodup)
    (hnd : isdir σ.fs (imgDir σ.start_date σ.rate) = false) :
    ∃ σ', move_unprocessed_files σ dir_path images = Except.ok σ' ∧
      listdir σ'.fs (imgDir σ.start_date σ.rate) =
        (listdir σ.fs dir_path).filter (stragglerP images) ∧
      listdir σ'.fs dir_path =
        (listdir σ.fs dir_path).filter (fun e => !(stragglerP images e)) := by
  by_cases hemp : ((listdir σ.fs dir_path).filter (stragglerP images)).isEmpty = true
  · refine ⟨σ, ?_, ?_, ?_⟩
    · unfold move_unprocessed_files
      rw [if_pos hemp]
    · rw [listdir_eq_nil_of_not_isdir hnd]
      exact (List.isEmpty_iff.mp hemp).symm
    · symm
      apply List.filter_eq_self.mpr
      intro a ha
      have hnot := List.filter_eq_nil_iff.mp (List.isEmpty_iff.mp hemp) a ha
      rcases hB : stragglerP images a with _ | _
      · rfl
      · exact absurd hB hnot
  · have hlne : listdir σ.fs dir_path ≠ [] := by
      intro hl
      rw [hl] at hemp
      simp at hemp
    have hdp : isdir σ.fs dir_path = true := isdir_of_listdir_ne_nil hlne
    have hnedp : imgDir σ.start_date σ.rate ≠ dir_path := by
      intro he
      rw [he] at hnd
      rw [hnd] at hdp
      exact Bool.noConfusion hdp
    have hnpnodup : ((((listdir σ.fs dir_path).filter (stragglerP images))).map Prod.fst).Nodup :=
      List.Nodup.sublist (List.Sublist.map Prod.fst (List.filter_sublist _)) hwf
    refine ⟨{ σ with fs := (moveAll dir_path (imgDir σ.start_date σ.rate) ((listdir σ.fs dir_path).filter (stragglerP images)) (mkdirFS σ.fs (imgDir σ.start_date σ.rate))) }, ?_, ?_, ?_⟩
    · unfold move_unprocessed_files
      rw [if_neg hemp, if_neg (by simp [hnd])]
    · show listdir (moveAll dir_path (imgDir σ.start_date σ.rate)
          ((listdir σ.fs dir_path).filter (stragglerP images))
          (mkdirFS σ.fs (imgDir σ.start_date σ.rate))) (imgDir σ.start_date σ.rate) =
        (listdir σ.fs dir_path).filter (stragglerP images)
      rw [moveAll_listdir_nd hnedp, listdir_mkdirFS_self,
        foldl_fsWrite_fresh _ [] (fun n _ => rfl) hnpnodup]
      simp
    · show listdir (moveAll dir_path (imgDir σ.start_date σ.rate)
          ((listdir σ.fs dir_path).filter (stragglerP images))
          (mkdirFS σ.fs (imgDir σ.start_date σ.rate))) dir_path =
        (listdir σ.fs dir_path).filter (fun e => !(stragglerP images e))
      rw [moveAll_listdir_dp hnedp, listdir_mkdirFS_ne _ (fun hh => hnedp hh.symm)]
      apply List.filter_congr
      intro x hx
      congr 1
      rcases hP : stragglerP images x with _ | _
      · rcases hC : ((((listdir σ.fs dir_path).filter (stragglerP images))).map
            Prod.fst).contains x.1 with _ | _
        · rfl
        · exfalso
          have hmem : x.1 ∈ ((listdir σ.fs dir_path).filter (stragglerP images)).map Prod.fst :=
            List.elem_iff.mp hC
          obtain ⟨y, hy, hyx⟩ := List.mem_map.mp hmem
          have hyl : y ∈ listdir σ.fs dir_path := (List.mem_filter.mp hy).1
          have hyP : stragglerP images y = true := (List.mem_filter.mp hy).2
          rw [keys_nodup_eq hwf y hyl x hx hyx] at hyP
          rw [hP] at hyP
          exact Bool.noConfusion hyP
      · have hmem : x.1 ∈ ((listdir σ.fs dir_path).filter (stragglerP images)).map Prod.fst :=
          List.mem_map_of_mem Prod.fst (List.mem_filter.mpr ⟨hx, hP⟩)
        exact List.elem_iff.mpr hmem

/-- Witness for C4: a concrete state with one straggler and no
pre-existing next directory; both hypotheses hold by evaluation and the
conclusion is obtained from `C4_straggler_set`. -/
theorem C4_straggler_set_witness :
    (((listdir stE.fs "/old").map Prod.fst).Nodup) ∧
    isdir stE.fs (imgDir stE.start_date stE.rate) = false ∧
    (∃ σ', move_unprocessed_files stE "/old" [] = Except.ok σ' ∧
      listdir σ'.fs (imgDir stE.start_date stE.rate) =
        (listdir stE.fs "/old").filter (stragglerP []) ∧
      listdir σ'.fs "/old" =
        (listdir stE.fs "/old").filter (fun e => !(stragglerP [] e))) :=
  ⟨by decide, by decide, C4_straggler_set stE "/old" [] (by decide) (by decide)⟩

/-! ## Model validation on known values -/

theorem gmtime_epoch : gmtime 0 = ⟨1970, 1, 1, 0, 0, 0⟩ := by decide

theorem gmtime_leap_day : gmtime (789 * 86400) = ⟨1972, 2, 29, 0, 0, 0⟩ := by decide

theorem gmtime_year9999_end : gmtime 253402300799 = ⟨9999, 12, 31, 23, 59, 59⟩ := by decide

theorem gmtime_year10000 : gmtime 253402300800 = ⟨10000, 1, 1, 0, 0, 0⟩ := by decide

theorem get_interval_epoch :
    get_interval 0 60 = "1970-01-01_00:00:00_1970-01-01_00:01:00" := by decide

theorem PATTERN_match_good :
    PATTERN_match "SDRSharp_20190601_120000Z_137100000Hz_IQ.png" = true := by decide

theorem PATTERN_match_trailing_newline :
    PATTERN_match "SDRSharp_20190601_120000Z_137100000Hz_IQ.png\n" = true := by decide

theorem PATTERN_match_bad : PATTERN_match "bad.png" = false := by decide

theorem PATTERN_match_no_overrun :
    PATTERN_match "SDRSharp_20190601_120000Z_137100000Hz_IQ.pngX" = false := by decide

theorem stem_checks :
    stem "a.png" = "a" ∧ stem ".hidden" = ".hidden" ∧ stem "a.b.c" = "a.b" ∧
    geoName "NOAA_x.png" = "NOAA_x_geo.tif" := by decide

end DirectDemod
